import Mathlib

/-!
Verification of the sudoku_tools repository: a shallow embedding of
`board.py`, `solver.py`, `tracing_solver.py` and `generator/backend.py`
into Lean, together with theorems settling the specification claims.

Conventions used throughout the embedding:
* Python lists become `List`; Python sets of small digits become `List Nat`
  (all operations used on them are membership, filtering, length and
  "pick the single element", which agree with set semantics because the
  lists in question stay duplicate-free).
* Mutation is modelled by explicit state passing: each statement that
  mutates the solver grid becomes a function `Grid → Grid`.
* Raised exceptions become `Except SolveError`.
* `while changed:` loops, which Python runs to a fixed point, take an
  explicit fuel argument; every theorem below is proved for an arbitrary
  fuel, so nothing depends on a particular bound.
* `Counter.items()` iterates in Python insertion order; the embedding
  iterates candidate digits in increasing order `1..9`.  Only digits whose
  count is exactly 1 are acted upon, so the same set of digits is
  processed either way.
-/

set_option maxRecDepth 8000

namespace SudokuTools

/-- `board.py` / `solver.py`: `pos_to_idx((x, y)) = x + y * 9`. -/
def posToIdx (p : Nat × Nat) : Nat := p.1 + p.2 * 9

/-- `board.py` / `solver.py`: `idx_to_pos(idx) = (idx % 9, idx // 9)`. -/
def idxToPos (i : Nat) : Nat × Nat := (i % 9, i / 9)

/-- `solver.py`: `SquareInfo` — `value` (0 = unknown), `options`
(the candidate set, kept as a duplicate-free list), `pos`. -/
structure SquareInfo where
  value : Nat
  options : List Nat
  pos : Nat × Nat
deriving DecidableEq

instance : Inhabited SquareInfo := ⟨⟨0, [], (0, 0)⟩⟩

/-- The solver grid: the `Solver.grid` list of 81 `SquareInfo` records. -/
abbrev Grid := List SquareInfo

/-- `solver.py`: `SET_1_TO_9` (as an ordered duplicate-free list). -/
def oneToNine : List Nat := (List.range 9).map (· + 1)

/-- `Solver.get_pos`: read the square at position `p`. -/
def getPos (g : Grid) (p : Nat × Nat) : SquareInfo :=
  List.getD g (posToIdx p) default

/-- Writing the square at position `p` (a Python attribute mutation on the
shared `SquareInfo` object, modelled as replacing the list entry). -/
def setPos (g : Grid) (p : Nat × Nat) (sq : SquareInfo) : Grid :=
  List.set g (posToIdx p) sq

/-- `Solver.__init__`: build the grid from an 81-digit sequence;
`options = {1..9}` for unknown cells, `{v}` for assigned cells. -/
def mkGrid (board : List Nat) : Grid :=
  board.enum.map fun iv =>
    { value := iv.2
      options := if iv.2 = 0 then oneToNine else [iv.2]
      pos := idxToPos iv.1 }

/-- Positions of column `x`, in the iteration order of the source
(`for y in range(9)`). -/
def colPositions (x : Nat) : List (Nat × Nat) :=
  (List.range 9).map fun y => (x, y)

/-- Positions of row `y`, in source iteration order (`for x in range(9)`). -/
def rowPositions (y : Nat) : List (Nat × Nat) :=
  (List.range 9).map fun x => (x, y)

/-- Positions of region `(rx, ry)`, in source iteration order
(`for x in range(rx0, rx0+3) for y in range(ry0, ry0+3)`). -/
def regionPositions (rx ry : Nat) : List (Nat × Nat) :=
  (List.range 3).flatMap fun dx => (List.range 3).map fun dy => (3 * rx + dx, 3 * ry + dy)

/-- Fetch the squares of a unit, mirroring the list comprehensions that
build `seq` arguments in the source. -/
def seqAt (g : Grid) (ps : List (Nat × Nat)) : List SquareInfo :=
  ps.map (getPos g)

/-- `Solver._check_validity_seq`: the assigned (non-zero) values of the
sequence contain no duplicate (`len(set(values)) == len(values)`). -/
def checkValiditySeq (seq : List SquareInfo) : Bool :=
  let values := (seq.filter fun sq => sq.value ≠ 0).map (·.value)
  values.dedup.length == values.length

/-- `Solver.check_validity`: all 9 columns, 9 rows and 9 regions pass
`_check_validity_seq` (the source returns early on the first failure;
`List.all` has the same value). -/
def checkValidity (g : Grid) : Bool :=
  ((List.range 9).all fun x => checkValiditySeq (seqAt g (colPositions x))) &&
  ((List.range 9).all fun y => checkValiditySeq (seqAt g (rowPositions y))) &&
  ((List.range 3).all fun rx => (List.range 3).all fun ry =>
    checkValiditySeq (seqAt g (regionPositions rx ry)))

/-- `Solver.is_solved`: every cell has a non-zero value. -/
def isSolved (g : Grid) : Bool :=
  g.all fun sq => sq.value != 0

/-- One step of the narrowing loops of `_fill_options_*`: if the cell is
unassigned, drop the definite digits from its options
(`sq.options -= definite_nums`). -/
def fillStep (definite : List Nat) (g' : Grid) (p : Nat × Nat) : Grid :=
  let sq := getPos g' p
  if sq.value = 0 then
    setPos g' p { sq with options := sq.options.filter (· ∉ definite) }
  else g'

/-- Common body of `_fill_options_x_col` / `_fill_options_y_row` /
`_fill_options_region`: collect the definite (non-zero) values of the unit,
then remove them from the options of every unassigned cell of the unit. -/
def fillOptionsSeq (g : Grid) (unit : List (Nat × Nat)) : Grid :=
  let definite := (unit.map fun p => (getPos g p).value).filter (· ≠ 0)
  unit.foldl (fillStep definite) g

/-- `Solver._fill_options_x_col`. -/
def fillOptionsXCol (g : Grid) (x : Nat) : Grid :=
  fillOptionsSeq g (colPositions x)

/-- `Solver._fill_options_y_row`. -/
def fillOptionsYRow (g : Grid) (y : Nat) : Grid :=
  fillOptionsSeq g (rowPositions y)

/-- `Solver._fill_options_region`. -/
def fillOptionsRegion (g : Grid) (rx ry : Nat) : Grid :=
  fillOptionsSeq g (regionPositions rx ry)

/-- `Solver._update_pos`: local candidate narrowing around one position. -/
def updatePos (g : Grid) (p : Nat × Nat) : Grid :=
  fillOptionsRegion (fillOptionsYRow (fillOptionsXCol g p.1) p.2) (p.1 / 3) (p.2 / 3)

/-- `Solver._fill_options`: global candidate narrowing over all units. -/
def fillOptions (g : Grid) : Grid :=
  let g1 := (List.range 9).foldl fillOptionsXCol g
  let g2 := (List.range 9).foldl fillOptionsYRow g1
  ((List.range 3).flatMap fun rx => (List.range 3).map fun ry => (rx, ry)).foldl
    (fun g' rr => fillOptionsRegion g' rr.1 rr.2) g2

/-- Cell scan order of `_solve_single_possibilities`
(`for x in range(9): for y in range(9)`). -/
def allPositionsXY : List (Nat × Nat) :=
  (List.range 9).flatMap fun x => (List.range 9).map fun y => (x, y)

/-- One cell step of `Solver._solve_single_possibilities`: an unassigned
cell with exactly one remaining option is assigned it
(`(sq.value,) = sq.options`), followed by `_update_pos` when
`update_options` is set. -/
def spStep (u : Bool) (acc : Grid × Bool) (p : Nat × Nat) : Grid × Bool :=
  let sq := getPos acc.1 p
  if sq.value = 0 ∧ sq.options.length = 1 then
    let g' := setPos acc.1 p { sq with value := sq.options.headD 0 }
    (if u then updatePos g' p else g', true)
  else acc

/-- `Solver._solve_single_possibilities`. -/
def solveSinglePossibilities (g : Grid) (u : Bool) : Grid × Bool :=
  allPositionsXY.foldl (spStep u) (g, false)

/-- `Solver._solve_single_possibilities_x`: iterate
`_solve_single_possibilities(True)` until it reports no change.  The fuel
bounds the number of iterations; on exhaustion the loop stops reporting
`false` (Python would keep iterating, but every pass that continues the
loop has made at least one change). -/
def solveSinglePossibilitiesX : Nat → Grid → Grid × Bool
  | 0, g => (g, false)
  | fuel + 1, g =>
    let r := solveSinglePossibilities g true
    if r.2 then ((solveSinglePossibilitiesX fuel r.1).1, true) else (r.1, false)

/-- The candidate count of `num` over a unit: how many cells of the unit
have `num` in their option set (the `Counter` over the chained option sets
of `_handle_1_occurrence_in_seq`; each set contributes at most one). -/
def countNum (g : Grid) (unit : List (Nat × Nat)) (num : Nat) : Nat :=
  (unit.filter fun p => num ∈ (getPos g p).options).length

/-- `Solver._handle_1_occurrence_in_seq`: for each digit whose candidate
count over the unit is exactly 1 (counts taken on the grid as it was on
entry, like the Python `Counter` built before the loop), assign it to the
first unassigned cell of the unit that still carries it, then narrow
locally.  Digits are visited in increasing order, see the file comment. -/
def handleOneOccurrence (g : Grid) (unit : List (Nat × Nat)) (u : Bool) : Grid × Bool :=
  oneToNine.foldl
    (fun acc num =>
      if countNum g unit num ≠ 1 then acc
      else
        match unit.find? (fun p =>
            decide (num ∈ (getPos acc.1 p).options) && (getPos acc.1 p).value == 0) with
        | none => acc
        | some p =>
          let sq := getPos acc.1 p
          let g' := setPos acc.1 p { sq with options := [num], value := num }
          (if u then updatePos g' sq.pos else g', true))
    (g, false)

/-- The 27 units in the visit order of `_solve_only_one_occurrence`:
columns, then rows, then regions (`ix` outer, `iy` inner). -/
def allUnits : List (List (Nat × Nat)) :=
  ((List.range 9).map colPositions) ++ ((List.range 9).map rowPositions) ++
    ((List.range 3).flatMap fun ix => (List.range 3).map fun iy => regionPositions ix iy)

/-- `Solver._solve_only_one_occurrence`: one pass over all 27 units. -/
def solveOnlyOneOccurrence (g : Grid) (u : Bool) : Grid × Bool :=
  allUnits.foldl
    (fun acc unit =>
      let r := handleOneOccurrence acc.1 unit u
      (r.1, acc.2 || r.2))
    (g, false)

/-- `Solver._solve_only_one_occurrence_x`: iterate the pass to quiescence
(same fuel convention as `solveSinglePossibilitiesX`). -/
def solveOnlyOneOccurrenceX : Nat → Grid → Grid × Bool
  | 0, g => (g, false)
  | fuel + 1, g =>
    let r := solveOnlyOneOccurrence g true
    if r.2 then ((solveOnlyOneOccurrenceX fuel r.1).1, true) else (r.1, false)

/-- The exceptions raised by the solver: `InvalidSudokuError` for a failed
precondition, `AssertionError` for a failed internal check or `assert`,
`ValueError` for an empty resolved strategy set. -/
inductive SolveError where
  | invalidSudoku
  | assertionError
  | configError
deriving DecidableEq

/-- `solver.py`: `SolverMethod`. -/
inductive SolverMethod where
  | oneOccurrenceIn
  | singlePossibility
deriving DecidableEq

instance : Fintype SolverMethod where
  elems := {SolverMethod.oneOccurrenceIn, SolverMethod.singlePossibility}
  complete := fun x => by cases x <;> simp

/-- `solver.py`: `SolverFilterDefault`. -/
inductive SolverFilterDefault where
  | exclude
  | include'
deriving DecidableEq

/-- The mutable state of a `Solver` instance that the claims mention:
the grid, the `has_solution` attribute and the `debug` flag. -/
structure SolverState where
  grid : Grid
  hasSolution : Option Bool
  debug : Bool

/-- `Solver.__init__` (with `has_solution = None`). -/
def initSolver (board : List Nat) (debug : Bool) : SolverState :=
  { grid := mkGrid board, hasSolution := none, debug := debug }

/-- The `while changed:` loop of `Solver.solve`:
`changed = sp_x(); changed = oo_x() or changed`. -/
def solveLoop (fuel : Nat) : Nat → Grid → Grid
  | 0, g => g
  | n + 1, g =>
    let r1 := solveSinglePossibilitiesX fuel g
    let r2 := solveOnlyOneOccurrenceX fuel r1.1
    if r2.2 || r1.2 then solveLoop fuel n r2.1 else r2.1

/-- `Solver.solve`: precondition check, `_fill_options`, the strategy
fixed-point loop, post-condition check, then store and return
`is_solved`. -/
def solve (fuel : Nat) (s : SolverState) : Except SolveError (SolverState × Bool) :=
  if s.debug && !checkValidity s.grid then .error .invalidSudoku
  else
    let g := solveLoop fuel fuel (fillOptions s.grid)
    if s.debug && !checkValidity g then .error .assertionError
    else
      .ok ({ s with grid := g, hasSolution := some (isSolved g) }, isSolved g)

/-- The strategy set `_get_solvers` computes before its emptiness check:
resolve the default (`include` when no include list was passed, otherwise
`exclude`), then either `set(SolverMethod) - exclude | include` or
`include - exclude`. -/
def resolvedSolvers (dflt : Option SolverFilterDefault)
    (exc : Option (Finset SolverMethod)) (inc : Option (Finset SolverMethod)) :
    Finset SolverMethod :=
  let d := match dflt with
    | some d => d
    | none => if inc.isNone then .include' else .exclude
  let incS := inc.getD ∅
  let excS := exc.getD ∅
  if d = SolverFilterDefault.include' then (Finset.univ \ excS) ∪ incS
  else incS \ excS

/-- `Solver._get_solvers`: resolve the strategy set from the
default/exclude/include arguments (argument order as in the source call
`self._get_solvers(default, exclude, include)`); an empty resolved set
raises `ValueError`. -/
def getSolvers (dflt : Option SolverFilterDefault)
    (exc : Option (Finset SolverMethod)) (inc : Option (Finset SolverMethod)) :
    Except SolveError (Finset SolverMethod) :=
  let solvers := resolvedSolvers dflt exc inc
  if solvers = ∅ then .error .configError else .ok solvers

/-- The `while changed:` loop of `Solver._solve_with_solvers`. -/
def solversLoop (fuel : Nat) (solvers : Finset SolverMethod) : Nat → Grid → Grid
  | 0, g => g
  | n + 1, g =>
    let r1 := if SolverMethod.singlePossibility ∈ solvers
      then solveSinglePossibilitiesX fuel g else (g, false)
    let r2 := if SolverMethod.oneOccurrenceIn ∈ solvers
      then solveOnlyOneOccurrenceX fuel r1.1 else (r1.1, false)
    if r1.2 || r2.2 then solversLoop fuel solvers n r2.1 else r2.1

/-- `Solver._solve_with_solvers`. -/
def solveWithSolvers (fuel : Nat) (solvers : Finset SolverMethod) (s : SolverState) :
    Except SolveError (SolverState × Bool) :=
  if s.debug && !checkValidity s.grid then .error .invalidSudoku
  else
    let g := solversLoop fuel solvers fuel (fillOptions s.grid)
    if s.debug && !checkValidity g then .error .assertionError
    else
      .ok ({ s with grid := g, hasSolution := some (isSolved g) }, isSolved g)

/-- `Solver.solve_filtered`: resolve the strategy set; when it is the full
set, call `solve()`, otherwise `_solve_with_solvers`. -/
def solveFiltered (fuel : Nat) (s : SolverState) (dflt : Option SolverFilterDefault)
    (inc : Option (Finset SolverMethod)) (exc : Option (Finset SolverMethod)) :
    Except SolveError (SolverState × Bool) :=
  match getSolvers dflt exc inc with
  | .error e => .error e
  | .ok solvers =>
    if solvers = Finset.univ then solve fuel s
    else solveWithSolvers fuel solvers s



/-! ## `board.py`: layout conversions -/

/-- `Board.swap_rows` (= `to_printable_order`):
`[[nested[x][y] for x in range(9)] for y in range(9)]`. -/
def swapRows {α : Type} [Inhabited α] (nested : List (List α)) : List (List α) :=
  (List.range 9).map fun y => (List.range 9).map fun x =>
    (nested.getD x []).getD y default

/-- `Board.nested_to_flat`: `[v for y_list in nested for v in y_list]`. -/
def nestedToFlat {α : Type} (nested : List (List α)) : List α :=
  nested.flatten

/-- `Board.flat_to_nested`:
`[[flat[pos_to_idx((x, y))] for y in range(9)] for x in range(9)]`. -/
def flatToNested {α : Type} [Inhabited α] (flat : List α) : List (List α) :=
  (List.range 9).map fun x => (List.range 9).map fun y =>
    flat.getD (posToIdx (x, y)) default

/-! ## `generator/backend.py` -/

/-- `BASE_BOARD` from `generator/backend.py` (as its flat digit list). -/
def baseBoardL : List Nat :=
  [1,2,3,4,5,6,7,8,9,
   4,5,6,7,8,9,1,2,3,
   7,8,9,1,2,3,4,5,6,
   5,6,4,8,9,7,2,3,1,
   2,3,1,5,6,4,8,9,7,
   8,9,7,2,3,1,5,6,4,
   3,1,2,9,7,8,6,4,5,
   9,7,8,6,4,5,3,1,2,
   6,4,5,3,1,2,9,7,8]

/-- A `Board` index: `int | tuple[int, int]` as accepted by
`Board.__getitem__` / `__setitem__` and `can_remove_number`. -/
abbrev Loc := Nat ⊕ (Nat × Nat)

/-- `Board.__getitem__` on a flat list of digits. -/
def boardGetLoc (b : List Nat) : Loc → Nat
  | .inl i => b.getD i 0
  | .inr p => b.getD (posToIdx p) 0

/-- `Board.__setitem__` on a flat list of digits. -/
def boardSetLoc (b : List Nat) : Loc → Nat → List Nat
  | .inl i, v => b.set i v
  | .inr p, v => b.set (posToIdx p) v

/-- The flat index a `Loc` denotes. -/
def locIdx : Loc → Nat
  | .inl i => i
  | .inr p => posToIdx p

/-- `GeneratorBackend.is_solvable`: `Solver(board).solve()` (with the
default `debug=True`). -/
def isSolvable (fuel : Nat) (b : List Nat) : Except SolveError Bool :=
  (solve fuel (initSolver b true)).map (·.2)

/-- `GeneratorBackend.is_easy`:
`Solver(b).solve_f(include=[SolverMethod.one_occurrence_in])`. -/
def isEasy (fuel : Nat) (b : List Nat) : Except SolveError Bool :=
  (solveFiltered fuel (initSolver b true) none (some {SolverMethod.oneOccurrenceIn}) none).map
    (·.2)

/-- `BoardClass`.  Modelled from the spec: `BoardClass` is imported by
`generator/backend.py` from `solver.py` but is absent from
`src/solver.py`; the spec (§3) gives it the three mutually exclusive
members `unsolvable`, `easy`, `hard`. -/
inductive BoardClass where
  | unsolvable
  | easy
  | hard
deriving DecidableEq

/-- Modelled from the spec: `Solver.classify_board` (the method
`GeneratorBackend.classify_board` delegates to) is absent from
`src/solver.py`.  Spec §4.4: "`classify_board(board)`: `unsolvable` if
`solve()` (full set) fails; else `easy` if solvable using the restricted
set `{one_occurrence_in}` alone; else `hard`."  The restricted-set probe
is the `is_easy` helper present in `backend.py`, which runs
`solve_f(include=[SolverMethod.one_occurrence_in])` on a fresh solver. -/
def classifyBoard (fuel : Nat) (b : List Nat) (debug : Bool) :
    Except SolveError BoardClass := do
  let full ← solve fuel (initSolver b debug)
  if !full.2 then pure .unsolvable
  else
    let easy ← (solveFiltered fuel (initSolver b debug) none
      (some {SolverMethod.oneOccurrenceIn}) none)
    if easy.2 then pure .easy else pure .hard

/-- The inner `for y in range(9)` loop shared by `_with_x_col_shuffled`
and (because of the transposed tuple it builds, see `withYRowShuffled`)
`_with_y_row_shuffled`: copy the 9 cells of source column `fromX` of
`src` onto destination column `toX` of `dst`. -/
def copyColumn (src dst : List Nat) (fromX toX : Nat) : List Nat :=
  (List.range 9).foldl
    (fun nb y => nb.set (posToIdx (toX, y)) (src.getD (posToIdx (fromX, y)) 0))
    dst

/-- `GeneratorBackend._with_x_col_shuffled`: for each `(xi, new_xi)` in
`enumerate(new_cols)`, copy column `x0+xi` of the input board to column
`x0+new_xi` of the output (`new_board[new_x, y] = board[old_x, y]`). -/
def withXColShuffled (board : List Nat) (x0 : Nat) (newCols : List Nat) : List Nat :=
  newCols.enum.foldl
    (fun nb xiPair => copyColumn board nb (x0 + xiPair.1) (x0 + xiPair.2))
    board

/-- `GeneratorBackend._with_y_row_shuffled`, embedded exactly as written:
`new_board[new_y, x] = board[old_y, x]`, i.e. the destination flat index is
`pos_to_idx((y0+new_yi, x)) = (y0+new_yi) + x*9` — the tuple passed to
`Board.__setitem__` is in `(x, y)` position order, so this writes the
*column* `y0+new_yi`, not the row (its loop body is exactly
`copyColumn`'s with `x` as the inner variable). -/
def withYRowShuffled (board : List Nat) (y0 : Nat) (newRows : List Nat) : List Nat :=
  newRows.enum.foldl
    (fun nb yiPair => copyColumn board nb (y0 + yiPair.1) (y0 + yiPair.2))
    board

/-- `GeneratorBackend._shuffled_x_cols_in_x_region`, with the result of the
`r.shuffle` draw passed explicitly. -/
def shuffledXColsInXRegion (board : List Nat) (newCols : List Nat) (rIdxX : Nat) : List Nat :=
  withXColShuffled board (rIdxX * 3) newCols

/-- `GeneratorBackend._shuffled_y_rows_in_y_region`, draw explicit. -/
def shuffledYRowsInYRegion (board : List Nat) (newRows : List Nat) (rIdxY : Nat) : List Nat :=
  withYRowShuffled board (rIdxY * 3) newRows

/-- Flattening a shuffled `[[0,1,2],[3,4,5],[6,7,8]]`: the band order
drawn by `r.shuffle` determines the flat index list. -/
def bandsToFlat (bands : List Nat) : List Nat :=
  bands.flatMap fun k => [3 * k, 3 * k + 1, 3 * k + 2]

/-- `GeneratorBackend._shuffled_x_region_cols`, band draw explicit. -/
def shuffledXRegionCols (board : List Nat) (bandPerm : List Nat) : List Nat :=
  withXColShuffled board 0 (bandsToFlat bandPerm)

/-- `GeneratorBackend._shuffled_y_region_rows`, band draw explicit. -/
def shuffledYRegionRows (board : List Nat) (bandPerm : List Nat) : List Nat :=
  withYRowShuffled board 0 (bandsToFlat bandPerm)

/-- `GeneratorBackend._shuffled_numbers`, digit draw (`old_to_new_nums`)
explicit: `0 if board[i] == 0 else old_to_new_nums[board[i] - 1]`. -/
def shuffledNumbers (board : List Nat) (oldToNew : List Nat) : List Nat :=
  (List.range 81).map fun i =>
    if board.getD i 0 = 0 then 0 else oldToNew.getD (board.getD i 0 - 1) 0

/-- The random draws consumed by one `shuffled_board` call: the in-band
permutations of `[0,1,2]` for the three x-regions and three y-regions, the
two whole-band permutations of `[0,1,2]`, and the digit relabeling (a
shuffle of `[1..9]`). -/
structure ShuffleDraws where
  colsInBand : Nat → List Nat
  rowsInBand : Nat → List Nat
  colBands : List Nat
  rowBands : List Nat
  digits : List Nat

/-- `GeneratorBackend.shuffled_board`, with the random stream made
explicit, applying the five steps in source order. -/
def shuffledBoard (board : List Nat) (d : ShuffleDraws) : List Nat :=
  let b1 := (List.range 3).foldl (fun b rx => shuffledXColsInXRegion b (d.colsInBand rx) rx) board
  let b2 := (List.range 3).foldl (fun b ry => shuffledYRowsInYRegion b (d.rowsInBand ry) ry) b1
  let b3 := shuffledXRegionCols b2 d.colBands
  let b4 := shuffledYRegionRows b3 d.rowBands
  shuffledNumbers b4 d.digits

/-- `GeneratorBackend.generate_random_board`: `shuffled_board(BASE_BOARD, r)`. -/
def generateRandomBoard (d : ShuffleDraws) : List Nat :=
  shuffledBoard baseBoardL d

/-- `GeneratorBackend.can_remove_number`: `None` when the cell is empty,
else `is_solvable` of a copy of the board with that cell cleared. -/
def canRemoveNumber (fuel : Nat) (b : List Nat) (loc : Loc) :
    Option (Except SolveError Bool) :=
  if boardGetLoc b loc = 0 then none
  else some (isSolvable fuel (boardSetLoc b loc 0))

/-- `can_remove_number` with the state of the caller's board object
threaded explicitly: the code copies the board (`board.copy()`), clears
the cell on the copy only, and never writes to the caller's board, so the
threaded state component is returned as received. -/
def canRemoveNumberSt (fuel : Nat) (b : List Nat) (loc : Loc) :
    Option (Except SolveError Bool) × List Nat :=
  if boardGetLoc b loc = 0 then (none, b)
  else
    let boardCopy := b
    let boardCopy := boardSetLoc boardCopy loc 0
    (some (isSolvable fuel boardCopy), b)

/-- `GeneratorBackend.get_removable_numbers`:
`[can_remove_number(board, idx) for idx in range(81)]`. -/
def getRemovableNumbers (fuel : Nat) (b : List Nat) :
    List (Option (Except SolveError Bool)) :=
  (List.range 81).map fun i => canRemoveNumber fuel b (.inl i)

/-- `get_removable_numbers` with the caller's board state threaded through
the 81 `can_remove_number` calls. -/
def getRemovableNumbersSt (fuel : Nat) (b : List Nat) :
    List (Option (Except SolveError Bool)) × List Nat :=
  (List.range 81).foldl
    (fun acc i =>
      let r := canRemoveNumberSt fuel acc.2 (.inl i)
      (acc.1 ++ [r.1], r.2))
    ([], b)

/-- `removal_order[:want_min]` clearing loop of `_find_boards_matching`. -/
def removeAll (b : List Nat) (ps : List Loc) : List Nat :=
  ps.foldl (fun b p => boardSetLoc b p 0) b

/-- The extension loop of `_find_boards_matching`
(`for rm_i, rm_pos in enumerate(removal_order[want_min:], start=want_min)`):
clear one more cell; on the first solvability failure restore that single
cell and report `rm_i - 1`; if all removals stay solvable report
`len(removal_order) - 1`.  Indices are `Int` because Python's
`last_i_solvable` may be `-1` (for `want_min = 0`). -/
def extendTrial (fuel roLen : Nat) : Int → List Nat → List Loc →
    Except SolveError (Int × List Nat)
  | _, b, [] => pure ((roLen : Int) - 1, b)
  | rmI, b, pos :: rest => do
    let wasAtPos := boardGetLoc b pos
    let b' := boardSetLoc b pos 0
    let s ← isSolvable fuel b'
    if s then extendTrial fuel roLen (rmI + 1) b' rest
    else pure (rmI - 1, boardSetLoc b' pos wasAtPos)

/-- One trial of `_find_boards_matching`: clear the first `want_min`
positions of the removal order, discard the trial (`continue`) if the
board stops being solvable, otherwise run the extension loop. -/
def fbmTrial (fuel : Nat) (ro : List Loc) (wantMin : Nat) (b0 : List Nat) :
    Except SolveError (Option (Int × List Nat)) := do
  let b1 := removeAll b0 (ro.take wantMin)
  let s ← isSolvable fuel b1
  if !s then pure none
  else do
    let r ← extendTrial fuel ro.length (wantMin : Int) b1 (ro.drop wantMin)
    pure (some r)

/-- The trial loop of `_find_boards_matching`: track `(best_i, best_board)`
(update when no best yet or strictly better), return success as soon as
`best_i >= len(removal_order) - 1` (the source also asserts equality
there, embedded as a potential `AssertionError`). -/
def fbmAux (fuel : Nat) (ro : List Loc) (wantMin : Nat) (draws : Nat → ShuffleDraws) :
    Nat → Nat → Int → Option (List Nat) →
    Except SolveError (Bool × Int × Option (List Nat))
  | 0, _, bestI, best => pure (false, bestI, best)
  | n + 1, i, bestI, best => do
    let randBoard := generateRandomBoard (draws i)
    match ← fbmTrial fuel ro wantMin randBoard with
    | none => fbmAux fuel ro wantMin draws n (i + 1) bestI best
    | some lb =>
      let bestP := if best.isNone || lb.1 > bestI then (lb.1, some lb.2) else (bestI, best)
      if bestP.1 ≥ (ro.length : Int) - 1 then
        if bestP.1 = (ro.length : Int) - 1 then pure (true, bestP.1, bestP.2)
        else .error .assertionError
      else fbmAux fuel ro wantMin draws n (i + 1) bestP.1 bestP.2

/-- `GeneratorBackend._find_boards_matching` with the random stream made
explicit as the sequence of shuffle draws of the generated boards.  The
leading `assert len(removal_order) >= want_min` becomes an
`AssertionError`. -/
def findBoardsMatching (fuel : Nat) (ro : List Loc) (wantMin stopAfter : Nat)
    (draws : Nat → ShuffleDraws) : Except SolveError (Bool × Int × Option (List Nat)) :=
  if ro.length < wantMin then .error .assertionError
  else fbmAux fuel ro wantMin draws stopAfter 0 0 none

/-- The solvability bit of `is_solvable`, with a raised exception read as
`false`; used to state the specification of `_find_boards_matching` (in
the runs the claims quantify over, `is_solvable` never raises, which is
proved separately). -/
def solvedOk (fuel : Nat) (b : List Nat) : Bool :=
  match isSolvable fuel b with
  | .ok r => r
  | .error _ => false

/-- Exception-free mirror of `extendTrial`, used to state what a trial of
`_find_boards_matching` computes. -/
def extendTrialP (fuel roLen : Nat) : Int → List Nat → List Loc → Int × List Nat
  | _, b, [] => ((roLen : Int) - 1, b)
  | rmI, b, pos :: rest =>
    let wasAtPos := boardGetLoc b pos
    let b' := boardSetLoc b pos 0
    if solvedOk fuel b' then extendTrialP fuel roLen (rmI + 1) b' rest
    else (rmI - 1, boardSetLoc b' pos wasAtPos)

/-- Exception-free mirror of `fbmTrial`: the outcome of one
`_find_boards_matching` trial on a given generated board — `none` when the
trial fails the minimum-removal gate, otherwise
`(last_i_solvable, board)`. -/
def fbmTrialP (fuel : Nat) (ro : List Loc) (wantMin : Nat) (b0 : List Nat) :
    Option (Int × List Nat) :=
  let b1 := removeAll b0 (ro.take wantMin)
  if !solvedOk fuel b1 then none
  else some (extendTrialP fuel ro.length (wantMin : Int) b1 (ro.drop wantMin))

/-- The outcome of trial `j` of `_find_boards_matching` for a given draw
stream. -/
def trialOutcome (fuel : Nat) (ro : List Loc) (wantMin : Nat)
    (draws : Nat → ShuffleDraws) (j : Nat) : Option (Int × List Nat) :=
  fbmTrialP fuel ro wantMin (generateRandomBoard (draws j))

/-- Trial `j` achieves the full removal order: its `last_i_solvable` is
`len(removal_order) - 1`. -/
def trialFull (fuel : Nat) (ro : List Loc) (wantMin : Nat) (draws : Nat → ShuffleDraws)
    (j : Nat) : Prop :=
  ∃ lb, trialOutcome fuel ro wantMin draws j = some lb ∧ lb.1 = (ro.length : Int) - 1

/-- The loop invariant of `_find_boards_matching` after consuming trials
`0..i-1`: either nothing survived the gate yet (`best_board is None`,
`best_i == 0`), or `best_board` is the earliest trial achieving the
running maximum `best_i`, which is still short of the full length. -/
def FbmInv (fuel : Nat) (ro : List Loc) (wantMin : Nat) (draws : Nat → ShuffleDraws)
    (i : Nat) (bestI : Int) (best : Option (List Nat)) : Prop :=
  (best = none ∧ bestI = 0 ∧ ∀ j, j < i → trialOutcome fuel ro wantMin draws j = none) ∨
  (∃ bb jb, best = some bb ∧ jb < i ∧
    trialOutcome fuel ro wantMin draws jb = some (bestI, bb) ∧
    bestI < (ro.length : Int) - 1 ∧
    (∀ k, k < i → ∀ lb, trialOutcome fuel ro wantMin draws k = some lb → lb.1 ≤ bestI) ∧
    (∀ k, k < jb → ∀ lb, trialOutcome fuel ro wantMin draws k = some lb → lb.1 < bestI))

/-- The draw stream whose every shuffle is the identity permutation; used
to instantiate theorems about `shuffled_board` at a concrete input. -/
def constDraws : ShuffleDraws :=
  { colsInBand := fun _ => [0, 1, 2]
    rowsInBand := fun _ => [0, 1, 2]
    colBands := [0, 1, 2]
    rowBands := [0, 1, 2]
    digits := oneToNine }

/-! ## `tracing_solver.py` -/

/-- `tracing_solver.py`: `SeqDirn`. -/
inductive SeqDirn where
  | row
  | column
  | region
deriving DecidableEq

/-- The `SolutionStep` records that the solve paths of `TracingSolver` can
produce (`LineInRegionStep` belongs to the `line_in_region` strategy,
which is not part of any `solve()`/`solve_filtered` strategy set in
`src/solver.py`).  The `num` field receives `self.get_pos(pos)` — the
whole `SquareInfo`, exactly as the handlers pass it — and the
`OneOccurrenceStep.dirn` field receives `self._curr_data` as stored. -/
inductive SolutionStep where
  | singlePossibility (pos : Nat × Nat) (num : SquareInfo)
  | oneOccurrence (pos : Nat × Nat) (num : SquareInfo) (dirn : Option SeqDirn)
deriving DecidableEq

/-- The tracing additions to the solver state: `_curr_method`,
`_curr_data` and `output`. -/
structure TraceState where
  currMethod : Option SolverMethod
  currData : Option SeqDirn
  output : List SolutionStep
deriving DecidableEq

/-- `TracingSolver._update_pos`: dispatch on the scoped current-strategy
context to append the step for this assignment (the handler reads
`self.get_pos(pos)` before the narrowing runs), then run the base
`_update_pos`.  A `none` method would be a `KeyError` in Python; every
call site below establishes a context first, so the fallthrough keeps the
trace unchanged and is unreachable from those sites. -/
def tUpdatePos (gts : Grid × TraceState) (p : Nat × Nat) : Grid × TraceState :=
  let ts' :=
    match gts.2.currMethod with
    | some SolverMethod.singlePossibility =>
      { gts.2 with output := gts.2.output ++ [SolutionStep.singlePossibility p (getPos gts.1 p)] }
    | some SolverMethod.oneOccurrenceIn =>
      { gts.2 with output :=
          gts.2.output ++ [SolutionStep.oneOccurrence p (getPos gts.1 p) gts.2.currData] }
    | none => gts.2
  (updatePos gts.1 p, ts')

/-- `tracing_solver.py`'s view of one `_solve_single_possibilities` cell
step: the base step with the overridden (tracing) `_update_pos`.  Tracing
fold accumulators pair the base accumulator's grid with the trace state:
`(Grid × TraceState) × Bool`. -/
def tSpStep (u : Bool) (acc : (Grid × TraceState) × Bool) (p : Nat × Nat) :
    (Grid × TraceState) × Bool :=
  let sq := getPos acc.1.1 p
  if sq.value = 0 ∧ sq.options.length = 1 then
    let g' := setPos acc.1.1 p { sq with value := sq.options.headD 0 }
    (if u then tUpdatePos (g', acc.1.2) p else (g', acc.1.2), true)
  else acc

/-- `TracingSolver._solve_single_possibilities`: establish the
`single_possibility` context, run the base body (with the tracing
`_update_pos`), restore the saved context on exit
(`_step_context`'s `finally`). -/
def tSolveSinglePossibilities (g : Grid) (ts : TraceState) (u : Bool) :
    (Grid × TraceState) × Bool :=
  let saved := (ts.currMethod, ts.currData)
  let ts1 := { ts with currMethod := some SolverMethod.singlePossibility, currData := none }
  let r := allPositionsXY.foldl (tSpStep u) ((g, ts1), false)
  ((r.1.1, { r.1.2 with currMethod := saved.1, currData := saved.2 }), r.2)

/-- `_handle_1_occurrence_in_seq` as run from a `TracingSolver`: the base
body with the overridden `_update_pos`. -/
def tHandleOneOccurrence (g : Grid) (ts : TraceState) (unit : List (Nat × Nat)) (u : Bool) :
    (Grid × TraceState) × Bool :=
  oneToNine.foldl
    (fun acc num =>
      if countNum g unit num ≠ 1 then acc
      else
        match unit.find? (fun p =>
            decide (num ∈ (getPos acc.1.1 p).options) && (getPos acc.1.1 p).value == 0) with
        | none => acc
        | some p =>
          let sq := getPos acc.1.1 p
          let g' := setPos acc.1.1 p { sq with options := [num], value := num }
          (if u then tUpdatePos (g', acc.1.2) sq.pos else (g', acc.1.2), true))
    ((g, ts), false)

/-- `TracingSolver._solve_1_occurrence_x_col` / `_y_row` / `_region`:
establish the `one_occurrence_in` context with the given direction, run
the base body, restore on exit. -/
def tSolve1OccurrenceSeq (dirn : SeqDirn) (unit : List (Nat × Nat)) (g : Grid)
    (ts : TraceState) (u : Bool) : (Grid × TraceState) × Bool :=
  let saved := (ts.currMethod, ts.currData)
  let ts1 := { ts with currMethod := some SolverMethod.oneOccurrenceIn, currData := some dirn }
  let r := tHandleOneOccurrence g ts1 unit u
  ((r.1.1, { r.1.2 with currMethod := saved.1, currData := saved.2 }), r.2)

/-- The 27 units with the `SeqDirn` each `_solve_1_occurrence_*` wrapper
attaches, in the visit order of `_solve_only_one_occurrence`. -/
def allUnitsDirn : List (SeqDirn × List (Nat × Nat)) :=
  ((List.range 9).map fun x => (SeqDirn.column, colPositions x)) ++
  ((List.range 9).map fun y => (SeqDirn.row, rowPositions y)) ++
  ((List.range 3).flatMap fun ix => (List.range 3).map fun iy =>
    (SeqDirn.region, regionPositions ix iy))

/-- `_solve_only_one_occurrence` as run from a `TracingSolver`. -/
def tSolveOnlyOneOccurrence (g : Grid) (ts : TraceState) (u : Bool) :
    (Grid × TraceState) × Bool :=
  allUnitsDirn.foldl
    (fun acc du =>
      let r := tSolve1OccurrenceSeq du.1 du.2 acc.1.1 acc.1.2 u
      (r.1, acc.2 || r.2))
    ((g, ts), false)

/-- `_solve_single_possibilities_x` as run from a `TracingSolver`. -/
def tSolveSinglePossibilitiesX : Nat → Grid → TraceState → (Grid × TraceState) × Bool
  | 0, g, ts => ((g, ts), false)
  | fuel + 1, g, ts =>
    let r := tSolveSinglePossibilities g ts true
    if r.2 then ((tSolveSinglePossibilitiesX fuel r.1.1 r.1.2).1, true)
    else (r.1, false)

/-- `_solve_only_one_occurrence_x` as run from a `TracingSolver`. -/
def tSolveOnlyOneOccurrenceX : Nat → Grid → TraceState → (Grid × TraceState) × Bool
  | 0, g, ts => ((g, ts), false)
  | fuel + 1, g, ts =>
    let r := tSolveOnlyOneOccurrence g ts true
    if r.2 then ((tSolveOnlyOneOccurrenceX fuel r.1.1 r.1.2).1, true)
    else (r.1, false)

/-- The `while changed:` loop of `solve` as run from a `TracingSolver`. -/
def tSolveLoop (fuel : Nat) : Nat → Grid → TraceState → Grid × TraceState
  | 0, g, ts => (g, ts)
  | n + 1, g, ts =>
    let r1 := tSolveSinglePossibilitiesX fuel g ts
    let r2 := tSolveOnlyOneOccurrenceX fuel r1.1.1 r1.1.2
    if r2.2 || r1.2 then tSolveLoop fuel n r2.1.1 r2.1.2 else r2.1

/-- The state of a `TracingSolver` instance: the inherited `Solver` state
plus the trace fields set up by `TracingSolver.__init__`. -/
structure TSolverState where
  grid : Grid
  hasSolution : Option Bool
  debug : Bool
  trace : TraceState

/-- `TracingSolver.__init__`. -/
def initTracingSolver (board : List Nat) (debug : Bool) : TSolverState :=
  { grid := mkGrid board, hasSolution := none, debug := debug
    trace := { currMethod := none, currData := none, output := [] } }

/-- `Solver.solve` as run on a `TracingSolver` instance (the inherited
method body dispatching to the overridden strategy wrappers). -/
def tSolve (fuel : Nat) (s : TSolverState) : Except SolveError (TSolverState × Bool) :=
  if s.debug && !checkValidity s.grid then .error .invalidSudoku
  else
    let r := tSolveLoop fuel fuel (fillOptions s.grid) s.trace
    if s.debug && !checkValidity r.1 then .error .assertionError
    else
      .ok ({ s with grid := r.1, hasSolution := some (isSolved r.1), trace := r.2 },
        isSolved r.1)

/-- Forget the trace: the base solver's view of a tracing fold
accumulator. -/
def projT (a : (Grid × TraceState) × Bool) : Grid × Bool := (a.1.1, a.2)

/-- `ts'` extends `ts`: same scoped context, output only appended to. -/
def TraceExt (ts ts' : TraceState) : Prop :=
  ts'.currMethod = ts.currMethod ∧ ts'.currData = ts.currData ∧
  ∃ Δ, ts'.output = ts.output ++ Δ

/-! ## Proof infrastructure: invariants used to verify the claims -/

/-- A position that denotes one of the 81 cells. -/
def ValidPos (p : Nat × Nat) : Prop := p.1 < 9 ∧ p.2 < 9

instance : DecidablePred ValidPos := fun _ => instDecidableAnd

/-- Two cells share a column, a row or a 3×3 region. -/
def sameUnit (p q : Nat × Nat) : Prop :=
  p.1 = q.1 ∨ p.2 = q.2 ∨ (p.1 / 3 = q.1 / 3 ∧ p.2 / 3 = q.2 / 3)

instance : ∀ p q, Decidable (sameUnit p q) := fun _ _ => instDecidableOr

/-- Board-level cell read (the flat digit list at `pos_to_idx`). -/
def bval (b : List Nat) (p : Nat × Nat) : Nat := b.getD (posToIdx p) 0

/-- A grid transformation that keeps every value and `pos` field and only
shrinks option sets.  All the `_fill_options_*` narrowing steps are of
this shape. -/
structure Shrink (g g' : Grid) : Prop where
  len : g'.length = g.length
  value : ∀ p, (getPos g' p).value = (getPos g p).value
  pos : ∀ p, (getPos g' p).pos = (getPos g p).pos
  subset : ∀ p, (getPos g' p).options ⊆ (getPos g p).options

/-- No two distinct cells of the unit carry the same non-zero value. -/
def UnitValid (g : Grid) (u : List (Nat × Nat)) : Prop :=
  List.Pairwise
    (fun p q => (getPos g p).value ≠ 0 → (getPos g q).value ≠ 0 →
      (getPos g p).value ≠ (getPos g q).value) u

/-- All 27 units are valid (the propositional reading of
`check_validity`). -/
def ValidG (g : Grid) : Prop := ∀ u ∈ allUnits, UnitValid g u

/-- The solver-loop invariant: 81 cells with correct `pos` fields, a valid
grid, and option sets of unassigned cells free of every value already
assigned in a shared unit. -/
structure Inv (g : Grid) : Prop where
  len : g.length = 81
  posOk : ∀ p, ValidPos p → (getPos g p).pos = p
  valid : ValidG g
  safe : ∀ p q, ValidPos p → ValidPos q → sameUnit p q →
    (getPos g p).value = 0 → (getPos g q).value ≠ 0 →
    (getPos g q).value ∉ (getPos g p).options

/-- Board-level validity: no two distinct cells of a shared unit carry the
same non-zero digit. -/
def BoardValid (b : List Nat) : Prop :=
  ∀ p q, ValidPos p → ValidPos q → p ≠ q → sameUnit p q →
    bval b p ≠ 0 → bval b q ≠ 0 → bval b p ≠ bval b q

/-- Board-level completeness: 81 cells, each holding a digit `1..9`. -/
def BoardComplete (b : List Nat) : Prop :=
  b.length = 81 ∧ ∀ p, ValidPos p → 1 ≤ bval b p ∧ bval b p ≤ 9

/-- `b'` arises from `b` by permuting the 9 columns in a way that maps
column bands to column bands (rows are untouched).  Every positional step
of `shuffled_board` produces a board in this relation to its input. -/
def IsColPerm (b b' : List Nat) : Prop :=
  b'.length = b.length ∧
  ∃ f : Nat → Nat,
    (∀ x, x < 9 → f x < 9) ∧
    (∀ x1 x2, x1 < 9 → x2 < 9 → f x1 = f x2 → x1 = x2) ∧
    (∀ x1 x2, x1 < 9 → x2 < 9 → x1 / 3 = x2 / 3 → f x1 / 3 = f x2 / 3) ∧
    (∀ x y, x < 9 → y < 9 → bval b' (x, y) = bval b (f x, y))

/-- Every cell of the grid carries an assigned (non-zero) value.  On such
a grid both solving strategies are no-ops. -/
def AllAssigned (g : Grid) : Prop := ∀ sq ∈ g, sq.value ≠ 0

/-- The draws of one `shuffled_board` call are what `random.shuffle`
guarantees: permutations of `[0, 1, 2]` (column/row draws and band draws)
and of `[1..9]` (the digit relabeling). -/
def PermDraws (d : ShuffleDraws) : Prop :=
  (∀ i, i < 3 → (d.colsInBand i).Perm [0, 1, 2]) ∧
  (∀ i, i < 3 → (d.rowsInBand i).Perm [0, 1, 2]) ∧
  d.colBands.Perm [0, 1, 2] ∧
  d.rowBands.Perm [0, 1, 2] ∧
  d.digits.Perm oneToNine

/-! ## Basic lemmas about positions and grid access -/

theorem posToIdx_lt {p : Nat × Nat} (hp : ValidPos p) : posToIdx p < 81 := by
  obtain ⟨h1, h2⟩ := hp
  simp only [posToIdx]
  omega

theorem posToIdx_inj {p q : Nat × Nat} (hp : ValidPos p) (hq : ValidPos q)
    (h : posToIdx p = posToIdx q) : p = q := by
  obtain ⟨a, b⟩ := p
  obtain ⟨c, d⟩ := q
  obtain ⟨h1, h2⟩ := hp
  obtain ⟨h3, h4⟩ := hq
  simp only [posToIdx] at h h1 h2 h3 h4 ⊢
  have : a = c ∧ b = d := by omega
  simp [this.1, this.2]

theorem idxToPos_posToIdx {p : Nat × Nat} (hp : ValidPos p) : idxToPos (posToIdx p) = p := by
  obtain ⟨a, b⟩ := p
  obtain ⟨h1, h2⟩ := hp
  simp only [idxToPos, posToIdx] at *
  have ha : (a + b * 9) % 9 = a := by omega
  have hb : (a + b * 9) / 9 = b := by omega
  simp [ha, hb]

theorem length_setPos (g : Grid) (p : Nat × Nat) (sq : SquareInfo) :
    (setPos g p sq).length = g.length :=
  List.length_set g (posToIdx p) sq

theorem getPos_setPos (g : Grid) (p q : Nat × Nat) (sq : SquareInfo) :
    getPos (setPos g p sq) q =
      if posToIdx p = posToIdx q ∧ posToIdx p < g.length then sq else getPos g q := by
  simp only [getPos, setPos, List.getD_eq_getElem?_getD, List.getElem?_set]
  rcases eq_or_ne (posToIdx p) (posToIdx q) with h1 | h1
  · rw [h1]
    by_cases h2 : posToIdx q < g.length
    · simp [h2]
    · rw [List.getElem?_eq_none (by omega)]
      simp [h2]
  · simp [h1]

theorem getPos_setPos_self (g : Grid) (p : Nat × Nat) (sq : SquareInfo)
    (h : posToIdx p < g.length) : getPos (setPos g p sq) p = sq := by
  simp [getPos_setPos, h]

theorem getPos_setPos_of_ne (g : Grid) (p q : Nat × Nat) (sq : SquareInfo)
    (h : posToIdx p ≠ posToIdx q) : getPos (setPos g p sq) q = getPos g q := by
  simp [getPos_setPos, h]

theorem getPos_congr_idx {g : Grid} {p q : Nat × Nat} (h : posToIdx p = posToIdx q) :
    getPos g p = getPos g q := by
  simp [getPos, h]

/-! ## Unit membership -/

theorem mem_colPositions {q : Nat × Nat} {x : Nat} :
    q ∈ colPositions x ↔ q.1 = x ∧ q.2 < 9 := by
  obtain ⟨a, b⟩ := q
  simp only [colPositions, List.mem_map, List.mem_range, Prod.mk.injEq]
  constructor
  · rintro ⟨y, hy, rfl, rfl⟩
    exact ⟨rfl, hy⟩
  · rintro ⟨rfl, hb⟩
    exact ⟨b, hb, rfl, rfl⟩

theorem mem_rowPositions {q : Nat × Nat} {y : Nat} :
    q ∈ rowPositions y ↔ q.2 = y ∧ q.1 < 9 := by
  obtain ⟨a, b⟩ := q
  simp only [rowPositions, List.mem_map, List.mem_range, Prod.mk.injEq]
  constructor
  · rintro ⟨x, hx, rfl, rfl⟩
    exact ⟨rfl, hx⟩
  · rintro ⟨rfl, ha⟩
    exact ⟨a, ha, rfl, rfl⟩

theorem mem_regionPositions {q : Nat × Nat} {rx ry : Nat} :
    q ∈ regionPositions rx ry ↔ q.1 / 3 = rx ∧ q.2 / 3 = ry ∧ q.1 < 9 * rx + 9 ∧ q.2 < 9 * ry + 9 := by
  obtain ⟨a, b⟩ := q
  simp only [regionPositions, List.mem_flatMap, List.mem_map, List.mem_range, Prod.mk.injEq]
  constructor
  · rintro ⟨dx, hdx, dy, hdy, rfl, rfl⟩
    refine ⟨by omega, by omega, by omega, by omega⟩
  · rintro ⟨h1, h2, _, _⟩
    exact ⟨a % 3, by omega, b % 3, by omega, by omega, by omega⟩

theorem mem_allUnits {u : List (Nat × Nat)} :
    u ∈ allUnits ↔
      (∃ x, x < 9 ∧ u = colPositions x) ∨ (∃ y, y < 9 ∧ u = rowPositions y) ∨
      (∃ rx, rx < 3 ∧ ∃ ry, ry < 3 ∧ u = regionPositions rx ry) := by
  simp only [allUnits, List.mem_append, List.mem_map, List.mem_flatMap, List.mem_range]
  constructor
  · rintro ((⟨x, hx, rfl⟩ | ⟨y, hy, rfl⟩) | ⟨rx, hrx, ry, hry, rfl⟩)
    · exact Or.inl ⟨x, hx, rfl⟩
    · exact Or.inr (Or.inl ⟨y, hy, rfl⟩)
    · exact Or.inr (Or.inr ⟨rx, hrx, ry, hry, rfl⟩)
  · rintro (⟨x, hx, rfl⟩ | ⟨y, hy, rfl⟩ | ⟨rx, hrx, ry, hry, rfl⟩)
    · exact Or.inl (Or.inl ⟨x, hx, rfl⟩)
    · exact Or.inl (Or.inr ⟨y, hy, rfl⟩)
    · exact Or.inr ⟨rx, hrx, ry, hry, rfl⟩

theorem allUnits_valid {u : List (Nat × Nat)} (hu : u ∈ allUnits)
    {p : Nat × Nat} (hp : p ∈ u) : ValidPos p := by
  rcases mem_allUnits.1 hu with ⟨x, hx, rfl⟩ | ⟨y, hy, rfl⟩ | ⟨rx, hrx, ry, hry, rfl⟩
  · obtain ⟨h1, h2⟩ := mem_colPositions.1 hp
    exact ⟨by omega, h2⟩
  · obtain ⟨h1, h2⟩ := mem_rowPositions.1 hp
    exact ⟨h2, by omega⟩
  · obtain ⟨h1, h2, h3, h4⟩ := mem_regionPositions.1 hp
    exact ⟨by omega, by omega⟩

theorem allUnits_sameUnit {u : List (Nat × Nat)} (hu : u ∈ allUnits)
    {p q : Nat × Nat} (hp : p ∈ u) (hq : q ∈ u) : sameUnit p q := by
  rcases mem_allUnits.1 hu with ⟨x, hx, rfl⟩ | ⟨y, hy, rfl⟩ | ⟨rx, hrx, ry, hry, rfl⟩
  · exact Or.inl ((mem_colPositions.1 hp).1.trans (mem_colPositions.1 hq).1.symm)
  · exact Or.inr (Or.inl ((mem_rowPositions.1 hp).1.trans (mem_rowPositions.1 hq).1.symm))
  · obtain ⟨h1, h2, -, -⟩ := mem_regionPositions.1 hp
    obtain ⟨h3, h4, -, -⟩ := mem_regionPositions.1 hq
    exact Or.inr (Or.inr ⟨h1.trans h3.symm, h2.trans h4.symm⟩)

theorem sameUnit_exists_unit {p q : Nat × Nat} (hp : ValidPos p) (hq : ValidPos q)
    (h : sameUnit p q) : ∃ u ∈ allUnits, p ∈ u ∧ q ∈ u := by
  obtain ⟨hp1, hp2⟩ := hp
  obtain ⟨hq1, hq2⟩ := hq
  rcases h with h | h | ⟨h1, h2⟩
  · refine ⟨colPositions p.1, mem_allUnits.2 (Or.inl ⟨p.1, hp1, rfl⟩), ?_, ?_⟩
    · exact mem_colPositions.2 ⟨rfl, hp2⟩
    · exact mem_colPositions.2 ⟨h.symm, hq2⟩
  · refine ⟨rowPositions p.2, mem_allUnits.2 (Or.inr (Or.inl ⟨p.2, hp2, rfl⟩)), ?_, ?_⟩
    · exact mem_rowPositions.2 ⟨rfl, hp1⟩
    · exact mem_rowPositions.2 ⟨h.symm, hq1⟩
  · refine ⟨regionPositions (p.1 / 3) (p.2 / 3),
      mem_allUnits.2 (Or.inr (Or.inr ⟨p.1 / 3, by omega, p.2 / 3, by omega, rfl⟩)), ?_, ?_⟩
    · exact mem_regionPositions.2 ⟨rfl, rfl, by omega, by omega⟩
    · exact mem_regionPositions.2 ⟨h1.symm, h2.symm, by omega, by omega⟩

theorem allUnits_nodup {u : List (Nat × Nat)} (hu : u ∈ allUnits) : u.Nodup := by
  rcases mem_allUnits.1 hu with ⟨x, hx, rfl⟩ | ⟨y, hy, rfl⟩ | ⟨rx, hrx, ry, hry, rfl⟩
  · exact (List.nodup_range 9).map fun a b h => by simpa using congrArg Prod.snd h
  · exact (List.nodup_range 9).map fun a b h => by simpa using congrArg Prod.fst h
  · rw [show regionPositions rx ry =
        ((List.range 3).flatMap fun dx => (List.range 3).map fun dy => (3 * rx + dx, 3 * ry + dy))
        from rfl, List.nodup_flatMap]
    constructor
    · intro dx _
      exact (List.nodup_range 3).map fun a b h => by
        have := congrArg Prod.snd h
        simp only at this
        omega
    · refine (List.nodup_range 3).imp ?_
      intro a b hab
      intro c hc1 hc2
      simp only [List.mem_map, List.mem_range] at hc1 hc2
      obtain ⟨d1, _, rfl⟩ := hc1
      obtain ⟨d2, _, heq⟩ := hc2
      have := congrArg Prod.fst heq
      simp only at this
      omega

/-! ## Shrink -/

theorem Shrink.refl (g : Grid) : Shrink g g :=
  ⟨rfl, fun _ => rfl, fun _ => rfl, fun _ => List.Subset.refl _⟩

theorem Shrink.comp {g1 g2 g3 : Grid} (h1 : Shrink g1 g2) (h2 : Shrink g2 g3) : Shrink g1 g3 :=
  ⟨h2.len.trans h1.len, fun p => (h2.value p).trans (h1.value p),
   fun p => (h2.pos p).trans (h1.pos p),
   fun p => (h2.subset p).trans (h1.subset p)⟩

theorem shrink_setPos {g : Grid} {p : Nat × Nat} {sq' : SquareInfo}
    (hv : sq'.value = (getPos g p).value) (hp : sq'.pos = (getPos g p).pos)
    (ho : sq'.options ⊆ (getPos g p).options) : Shrink g (setPos g p sq') := by
  refine ⟨length_setPos g p sq', fun q => ?_, fun q => ?_, fun q => ?_⟩
  · rw [getPos_setPos]
    split
    · rename_i hc
      rw [hv, getPos_congr_idx hc.1]
    · rfl
  · rw [getPos_setPos]
    split
    · rename_i hc
      rw [hp, getPos_congr_idx hc.1]
    · rfl
  · rw [getPos_setPos]
    split
    · rename_i hc
      rw [getPos_congr_idx hc.1] at ho
      exact ho
    · exact List.Subset.refl _

theorem fillStep_def (definite : List Nat) (g : Grid) (p : Nat × Nat) :
    fillStep definite g p =
      if (getPos g p).value = 0 then
        setPos g p { getPos g p with options := (getPos g p).options.filter (· ∉ definite) }
      else g := rfl

theorem fillStep_shrink (definite : List Nat) (g : Grid) (p : Nat × Nat) :
    Shrink g (fillStep definite g p) := by
  rw [fillStep_def]
  split
  · exact shrink_setPos rfl rfl (fun a ha => (List.mem_filter.1 ha).1)
  · exact Shrink.refl g

theorem foldl_shrink {ι : Type} (f : Grid → ι → Grid)
    (hf : ∀ g i, Shrink g (f g i)) (l : List ι) (g : Grid) : Shrink g (l.foldl f g) := by
  induction l generalizing g with
  | nil => exact Shrink.refl g
  | cons a t ih => exact (hf g a).comp (ih (f g a))

theorem fillOptionsSeq_shrink (g : Grid) (u : List (Nat × Nat)) :
    Shrink g (fillOptionsSeq g u) := by
  unfold fillOptionsSeq
  exact foldl_shrink _ (fillStep_shrink _) u g

theorem fillOptionsXCol_shrink (g : Grid) (x : Nat) : Shrink g (fillOptionsXCol g x) :=
  fillOptionsSeq_shrink g (colPositions x)

theorem fillOptionsYRow_shrink (g : Grid) (y : Nat) : Shrink g (fillOptionsYRow g y) :=
  fillOptionsSeq_shrink g (rowPositions y)

theorem fillOptionsRegion_shrink (g : Grid) (rx ry : Nat) :
    Shrink g (fillOptionsRegion g rx ry) :=
  fillOptionsSeq_shrink g (regionPositions rx ry)

theorem updatePos_shrink (g : Grid) (p : Nat × Nat) : Shrink g (updatePos g p) := by
  unfold updatePos
  exact ((fillOptionsXCol_shrink g p.1).comp (fillOptionsYRow_shrink _ p.2)).comp
    (fillOptionsRegion_shrink _ _ _)

set_option maxHeartbeats 1600000 in
theorem fillOptions_shrink (g : Grid) : Shrink g (fillOptions g) := by
  have h1 : Shrink g ((List.range 9).foldl fillOptionsXCol g) :=
    foldl_shrink fillOptionsXCol fillOptionsXCol_shrink (List.range 9) g
  have h2 := foldl_shrink fillOptionsYRow fillOptionsYRow_shrink (List.range 9)
    ((List.range 9).foldl fillOptionsXCol g)
  have h3 := foldl_shrink (fun (g' : Grid) (rr : Nat × Nat) => fillOptionsRegion g' rr.1 rr.2)
    (fun (g : Grid) (rr : Nat × Nat) => fillOptionsRegion_shrink g rr.1 rr.2)
    ((List.range 3).flatMap fun rx => (List.range 3).map fun ry => (rx, ry))
    ((List.range 9).foldl fillOptionsYRow ((List.range 9).foldl fillOptionsXCol g))
  exact (h1.comp h2).comp h3

/-! ## The validity bridge: `check_validity` vs the propositional invariant -/

theorem checkValiditySeq_iff (seq : List SquareInfo) :
    checkValiditySeq seq = true ↔
      ((seq.filter fun sq => sq.value ≠ 0).map (·.value)).Nodup := by
  unfold checkValiditySeq
  simp only [beq_iff_eq]
  constructor
  · intro h
    have heq := (List.dedup_sublist _).eq_of_length h
    rw [← heq]
    exact List.nodup_dedup _
  · intro h
    rw [List.dedup_eq_self.2 h]

theorem checkValiditySeq_seqAt_iff (g : Grid) (u : List (Nat × Nat)) :
    checkValiditySeq (seqAt g u) = true ↔ UnitValid g u := by
  rw [checkValiditySeq_iff]
  unfold seqAt UnitValid
  rw [List.Nodup, List.pairwise_map, List.pairwise_filter, List.pairwise_map]

theorem pairwise_of_forall_mem_ne {α : Type} {R : α → α → Prop} :
    ∀ {l : List α}, l.Nodup → (∀ a ∈ l, ∀ b ∈ l, a ≠ b → R a b) → l.Pairwise R
  | [], _, _ => List.Pairwise.nil
  | a :: t, hn, h => by
    refine List.Pairwise.cons (fun b hb => ?_) ?_
    · refine h a (List.mem_cons_self a t) b (List.mem_cons_of_mem a hb) ?_
      rintro rfl
      exact (List.nodup_cons.1 hn).1 hb
    · exact pairwise_of_forall_mem_ne (List.nodup_cons.1 hn).2
        fun x hx y hy hxy => h x (List.mem_cons_of_mem a hx) y (List.mem_cons_of_mem a hy) hxy

theorem UnitValid.pairs {g : Grid} {u : List (Nat × Nat)} (h : UnitValid g u)
    {p q : Nat × Nat} (hp : p ∈ u) (hq : q ∈ u) (hne : p ≠ q) :
    (getPos g p).value ≠ 0 → (getPos g q).value ≠ 0 →
      (getPos g p).value ≠ (getPos g q).value := by
  refine h.forall ?_ hp hq hne
  intro a b hab h1 h2
  exact (hab h2 h1).symm

theorem unitValid_of_pairs {g : Grid} {u : List (Nat × Nat)} (hn : u.Nodup)
    (h : ∀ p ∈ u, ∀ q ∈ u, p ≠ q → (getPos g p).value ≠ 0 → (getPos g q).value ≠ 0 →
      (getPos g p).value ≠ (getPos g q).value) : UnitValid g u :=
  pairwise_of_forall_mem_ne hn h

theorem checkValidity_iff_validG (g : Grid) : checkValidity g = true ↔ ValidG g := by
  unfold checkValidity ValidG
  simp only [Bool.and_eq_true, List.all_eq_true, List.mem_range]
  constructor
  · rintro ⟨⟨hc, hr⟩, hreg⟩ u hu
    rcases mem_allUnits.1 hu with ⟨x, hx, rfl⟩ | ⟨y, hy, rfl⟩ | ⟨rx, hrx, ry, hry, rfl⟩
    · exact (checkValiditySeq_seqAt_iff g _).1 (hc x hx)
    · exact (checkValiditySeq_seqAt_iff g _).1 (hr y hy)
    · exact (checkValiditySeq_seqAt_iff g _).1 (hreg rx hrx ry hry)
  · intro h
    refine ⟨⟨fun x hx => ?_, fun y hy => ?_⟩, fun rx hrx ry hry => ?_⟩
    · exact (checkValiditySeq_seqAt_iff g _).2 (h _ (mem_allUnits.2 (Or.inl ⟨x, hx, rfl⟩)))
    · exact (checkValiditySeq_seqAt_iff g _).2
        (h _ (mem_allUnits.2 (Or.inr (Or.inl ⟨y, hy, rfl⟩))))
    · exact (checkValiditySeq_seqAt_iff g _).2
        (h _ (mem_allUnits.2 (Or.inr (Or.inr ⟨rx, hrx, ry, hry, rfl⟩))))

theorem UnitValid.of_value_eq {g g' : Grid} {u : List (Nat × Nat)}
    (h : ∀ p, (getPos g' p).value = (getPos g p).value) (hv : UnitValid g u) :
    UnitValid g' u := by
  refine hv.imp ?_
  intro p q hpq
  rw [h p, h q]
  exact hpq

theorem validG_of_value_eq {g g' : Grid}
    (h : ∀ p, (getPos g' p).value = (getPos g p).value) (hv : ValidG g) : ValidG g' :=
  fun u hu => (hv u hu).of_value_eq h

theorem Inv.ofShrink {g g' : Grid} (hs : Shrink g g') (hI : Inv g) : Inv g' where
  len := hs.len.trans hI.len
  posOk := fun p hp => (hs.pos p).trans (hI.posOk p hp)
  valid := validG_of_value_eq hs.value hI.valid
  safe := fun p q hp hq hu hz hnz => by
    rw [hs.value] at hz hnz
    intro hmem
    exact hI.safe p q hp hq hu hz hnz (hs.subset p (by rwa [hs.value] at hmem))

/-! ## Candidate clearing and the assignment lemma -/

theorem foldl_pres {ι : Type} {f : Grid → ι → Grid} {D : Grid → Prop}
    (l : List ι) (h : ∀ g i, i ∈ l → D g → D (f g i)) (g : Grid) (hD : D g) :
    D (l.foldl f g) := by
  induction l generalizing g with
  | nil => exact hD
  | cons a t ih =>
    exact ih (fun g i hi => h g i (List.mem_cons_of_mem a hi)) (f g a)
      (h g a (List.mem_cons_self a t) hD)

theorem foldl_eventually {ι : Type} (f : Grid → ι → Grid) (l : List ι) (a : ι) (ha : a ∈ l)
    (hsh : ∀ g i, Shrink g (f g i)) (D : Grid → Prop)
    (hDsh : ∀ g g', Shrink g g' → D g → D g')
    (g : Grid) (hest : ∀ g', Shrink g g' → D (f g' a)) : D (l.foldl f g) := by
  obtain ⟨s, t, rfl⟩ := List.append_of_mem ha
  rw [List.foldl_append, List.foldl_cons]
  have h1 : Shrink g (s.foldl f g) := foldl_shrink f hsh s g
  exact foldl_pres t (fun g i _ hD => hDsh _ _ (hsh g i) hD) _ (hest _ h1)

theorem fillFold_clears (definite : List Nat) (l : List (Nat × Nat)) (g : Grid)
    {p : Nat × Nat} (hp : p ∈ l) (hpl : posToIdx p < g.length)
    (hz : (getPos g p).value = 0) {w : Nat} (hw : w ∈ definite) :
    w ∉ (getPos (l.foldl (fillStep definite) g) p).options := by
  induction l generalizing g with
  | nil => cases hp
  | cons a t ih =>
    rw [List.foldl_cons]
    rcases List.mem_cons.1 hp with rfl | hp'
    · have hstep : w ∉ (getPos (fillStep definite g p) p).options := by
        rw [fillStep_def, if_pos hz, getPos_setPos_self _ _ _ hpl]
        intro hmem
        rw [List.mem_filter] at hmem
        have hnd : w ∉ definite := by simpa using hmem.2
        exact hnd hw
      have hsh := foldl_shrink (fillStep definite) (fillStep_shrink definite) t
        (fillStep definite g p)
      exact fun hmem => hstep (hsh.subset p hmem)
    · exact ih (fillStep definite g a) hp'
        (by rw [(fillStep_shrink definite g a).len]; exact hpl)
        (by rw [(fillStep_shrink definite g a).value]; exact hz)

theorem fillOptionsSeq_clears {g : Grid} {u : List (Nat × Nat)} {p q : Nat × Nat}
    (hp : p ∈ u) (hq : q ∈ u) (hpl : posToIdx p < g.length)
    (hzp : (getPos g p).value = 0) (hzq : (getPos g q).value ≠ 0) :
    (getPos g q).value ∉ (getPos (fillOptionsSeq g u) p).options := by
  unfold fillOptionsSeq
  apply fillFold_clears _ u g hp hpl hzp
  rw [List.mem_filter]
  exact ⟨List.mem_map.2 ⟨q, hq, rfl⟩, by simpa using hzq⟩

theorem Inv.assignUpdate {g : Grid} (hI : Inv g) {c : Nat × Nat} {v : Nat} {opts' : List Nat}
    (hc : ValidPos c) (hz : (getPos g c).value = 0)
    (hv : v ∈ (getPos g c).options) (hopts : opts' ⊆ (getPos g c).options) :
    Inv (updatePos (setPos g c { getPos g c with value := v, options := opts' }) c) := by
  by_cases hv0 : v = 0
  · subst hv0
    have hs1 : Shrink g (setPos g c { getPos g c with value := 0, options := opts' }) := by
      apply shrink_setPos
      · rw [hz]
      · rfl
      · exact hopts
    exact Inv.ofShrink (hs1.comp (updatePos_shrink _ c)) hI
  · have hlen : posToIdx c < g.length := by rw [hI.len]; exact posToIdx_lt hc
    set sq' : SquareInfo := { getPos g c with value := v, options := opts' } with hsq'
    set g1 := setPos g c sq' with hg1
    have hval1 : ∀ q, getPos g1 q = if posToIdx c = posToIdx q then sq' else getPos g q := by
      intro q
      rw [hg1, getPos_setPos]
      by_cases h : posToIdx c = posToIdx q
      · rw [if_pos ⟨h, hlen⟩, if_pos h]
      · rw [if_neg (fun hh => h hh.1), if_neg h]
    have hsUP : Shrink g1 (updatePos g1 c) := updatePos_shrink g1 c
    have hvc1 : (getPos g1 c).value = v := by rw [hval1 c, if_pos rfl]
    have hValidG1 : ValidG g1 := by
      intro u hu
      refine unitValid_of_pairs (allUnits_nodup hu) ?_
      intro p hpu q hqu hne hnp hnq
      have hpV := allUnits_valid hu hpu
      have hqV := allUnits_valid hu hqu
      by_cases hpc : posToIdx c = posToIdx p
      · have hpe : p = c := (posToIdx_inj hc hpV hpc).symm
        by_cases hqc : posToIdx c = posToIdx q
        · exact absurd (hpe.trans (posToIdx_inj hc hqV hqc)) hne
        · have hvq : getPos g1 q = getPos g q := by rw [hval1 q, if_neg hqc]
          rw [hval1 p, if_pos hpc]
          rw [hvq] at hnq ⊢
          have hsq : sameUnit c q := allUnits_sameUnit hu (hpe ▸ hpu) hqu
          have hsafe := hI.safe c q hc hqV hsq hz hnq
          intro heq
          exact hsafe (heq ▸ hv)
      · by_cases hqc : posToIdx c = posToIdx q
        · have hqe : q = c := (posToIdx_inj hc hqV hqc).symm
          have hvp : getPos g1 p = getPos g p := by rw [hval1 p, if_neg hpc]
          rw [hval1 q, if_pos hqc]
          rw [hvp] at hnp ⊢
          have hsp : sameUnit c p := allUnits_sameUnit hu (hqe ▸ hqu) hpu
          have hsafe := hI.safe c p hc hpV hsp hz hnp
          intro heq
          exact hsafe (heq ▸ hv)
        · have hvp : getPos g1 p = getPos g p := by rw [hval1 p, if_neg hpc]
          have hvq : getPos g1 q = getPos g q := by rw [hval1 q, if_neg hqc]
          rw [hvp] at hnp ⊢
          rw [hvq] at hnq ⊢
          exact (hI.valid u hu).pairs hpu hqu hne hnp hnq
    refine ⟨?_, ?_, ?_, ?_⟩
    · rw [hsUP.len, hg1, length_setPos, hI.len]
    · intro q hq
      rw [hsUP.pos q, hval1 q]
      split
      · rename_i h
        have hqe : c = q := posToIdx_inj hc hq h
        calc sq'.pos = (getPos g c).pos := rfl
          _ = c := hI.posOk c hc
          _ = q := hqe
      · exact hI.posOk q hq
    · exact validG_of_value_eq hsUP.value hValidG1
    · intro p q hp hq hu hzp hnzq
      rw [hsUP.value] at hzp hnzq ⊢
      have hpc : posToIdx c ≠ posToIdx p := by
        intro h
        rw [hval1 p, if_pos h] at hzp
        exact hv0 hzp
      have hvalp : getPos g1 p = getPos g p := by rw [hval1 p, if_neg hpc]
      by_cases hqc : posToIdx c = posToIdx q
      · have hvq : (getPos g1 q).value = v := by rw [hval1 q, if_pos hqc]
        rw [hvq]
        have hqe : q = c := (posToIdx_inj hc hq hqc).symm
        have hupc : sameUnit p c := hqe ▸ hu
        have hg1len : posToIdx p < g1.length := by
          rw [hg1, length_setPos, hI.len]
          exact posToIdx_lt hp
        have hzp1 : (getPos g1 p).value = 0 := hzp
        have hnz1 : (getPos g1 c).value ≠ 0 := by rw [hvc1]; exact hv0
        rcases hupc with hcol | hrow | ⟨hreg1, hreg2⟩
        · have hmem_p : p ∈ colPositions c.1 := mem_colPositions.2 ⟨hcol, hp.2⟩
          have hmem_c : c ∈ colPositions c.1 := mem_colPositions.2 ⟨rfl, hc.2⟩
          have h1 := fillOptionsSeq_clears hmem_p hmem_c hg1len hzp1 hnz1
          rw [hvc1] at h1
          have h2 : Shrink (fillOptionsXCol g1 c.1) (updatePos g1 c) := by
            unfold updatePos
            exact (fillOptionsYRow_shrink _ _).comp (fillOptionsRegion_shrink _ _ _)
          exact fun hmem => h1 (h2.subset p hmem)
        · have hsh1 : Shrink g1 (fillOptionsXCol g1 c.1) := fillOptionsXCol_shrink g1 c.1
          have hmem_p : p ∈ rowPositions c.2 := mem_rowPositions.2 ⟨hrow, hp.1⟩
          have hmem_c : c ∈ rowPositions c.2 := mem_rowPositions.2 ⟨rfl, hc.1⟩
          have h1 := fillOptionsSeq_clears (g := fillOptionsXCol g1 c.1) hmem_p hmem_c
            (by rw [hsh1.len]; exact hg1len)
            (by rw [hsh1.value]; exact hzp1)
            (by rw [hsh1.value]; exact hnz1)
          rw [hsh1.value, hvc1] at h1
          have h2 : Shrink (fillOptionsYRow (fillOptionsXCol g1 c.1) c.2) (updatePos g1 c) := by
            unfold updatePos
            exact fillOptionsRegion_shrink _ _ _
          exact fun hmem => h1 (h2.subset p hmem)
        · have hsh1 : Shrink g1 (fillOptionsYRow (fillOptionsXCol g1 c.1) c.2) :=
            (fillOptionsXCol_shrink g1 c.1).comp (fillOptionsYRow_shrink _ c.2)
          have hmem_p : p ∈ regionPositions (c.1 / 3) (c.2 / 3) :=
            mem_regionPositions.2 ⟨hreg1, hreg2, by omega, by omega⟩
          have hmem_c : c ∈ regionPositions (c.1 / 3) (c.2 / 3) :=
            mem_regionPositions.2 ⟨rfl, rfl, by omega, by omega⟩
          have h1 := fillOptionsSeq_clears
            (g := fillOptionsYRow (fillOptionsXCol g1 c.1) c.2) hmem_p hmem_c
            (by rw [hsh1.len]; exact hg1len)
            (by rw [hsh1.value]; exact hzp1)
            (by rw [hsh1.value]; exact hnz1)
          rw [hsh1.value, hvc1] at h1
          exact fun hmem => h1 hmem
      · have hvalq : getPos g1 q = getPos g q := by rw [hval1 q, if_neg hqc]
        rw [hvalq] at hnzq ⊢
        rw [hvalp] at hzp
        have hres := hI.safe p q hp hq hu hzp hnzq
        intro hmem
        have hsub : (getPos (updatePos g1 c) p).options ⊆ (getPos g p).options := by
          intro a ha
          have := hsUP.subset p ha
          rwa [hvalp] at this
        exact hres (hsub hmem)

/-! ## The strategies preserve the invariant -/

theorem foldl_fst_pres {ι α : Type} {P : Grid → Prop} {f : Grid × α → ι → Grid × α}
    (l : List ι) (h : ∀ x i, i ∈ l → P x.1 → P (f x i).1) (x : Grid × α) (hP : P x.1) :
    P (l.foldl f x).1 := by
  induction l generalizing x with
  | nil => exact hP
  | cons a t ih =>
    exact ih (fun x i hi => h x i (List.mem_cons_of_mem a hi)) (f x a)
      (h x a (List.mem_cons_self a t) hP)

theorem mem_allPositionsXY {p : Nat × Nat} : p ∈ allPositionsXY ↔ ValidPos p := by
  obtain ⟨a, b⟩ := p
  simp only [allPositionsXY, List.mem_flatMap, List.mem_map, List.mem_range, Prod.mk.injEq]
  constructor
  · rintro ⟨x, hx, y, hy, rfl, rfl⟩
    exact ⟨hx, hy⟩
  · rintro ⟨ha, hb⟩
    exact ⟨a, ha, b, hb, rfl, rfl⟩

theorem headD_mem_of_length_one {l : List Nat} (h : l.length = 1) : l.headD 0 ∈ l := by
  obtain ⟨a, rfl⟩ := List.length_eq_one.1 h
  simp

theorem fillOptionsXCol_def (g : Grid) (x : Nat) :
    fillOptionsXCol g x = fillOptionsSeq g (colPositions x) := rfl

theorem fillOptionsYRow_def (g : Grid) (y : Nat) :
    fillOptionsYRow g y = fillOptionsSeq g (rowPositions y) := rfl

theorem fillOptionsRegion_def (g : Grid) (rx ry : Nat) :
    fillOptionsRegion g rx ry = fillOptionsSeq g (regionPositions rx ry) := rfl

attribute [irreducible] getPos setPos fillStep fillOptionsSeq fillOptionsXCol
  fillOptionsYRow fillOptionsRegion updatePos fillOptions

theorem ite_inv {c : Prop} [Decidable c] {a b : Grid} (ha : c → Inv a) (hb : ¬c → Inv b) :
    Inv (if c then a else b) := by
  split
  · exact ha ‹c›
  · exact hb ‹¬c›

theorem ite_fst_inv {c : Prop} [Decidable c] {a b : Grid × Bool}
    (ha : c → Inv a.1) (hb : ¬c → Inv b.1) : Inv (if c then a else b).1 := by
  split
  · exact ha ‹c›
  · exact hb ‹¬c›

theorem spStep_def (u : Bool) (acc : Grid × Bool) (p : Nat × Nat) :
    spStep u acc p =
      if (getPos acc.1 p).value = 0 ∧ (getPos acc.1 p).options.length = 1 then
        (if u then
          updatePos (setPos acc.1 p
            { getPos acc.1 p with value := (getPos acc.1 p).options.headD 0 }) p
        else setPos acc.1 p
          { getPos acc.1 p with value := (getPos acc.1 p).options.headD 0 }, true)
      else acc := rfl

theorem spStep_inv {acc : Grid × Bool} {p : Nat × Nat} (hp : ValidPos p)
    (hI : Inv acc.1) : Inv (spStep true acc p).1 := by
  rw [spStep_def]
  refine ite_fst_inv (fun hcond => ?_) (fun _ => hI)
  exact hI.assignUpdate hp hcond.1 (headD_mem_of_length_one hcond.2) (List.Subset.refl _)

theorem solveSinglePossibilities_inv {g : Grid} (hI : Inv g) :
    Inv (solveSinglePossibilities g true).1 := by
  unfold solveSinglePossibilities
  exact foldl_fst_pres allPositionsXY
    (fun x i hi hP => spStep_inv (mem_allPositionsXY.1 hi) hP) (g, false) hI

theorem handleOneOccurrence_inv {g : Grid} {unit : List (Nat × Nat)} (hu : unit ∈ allUnits)
    (hI : Inv g) : Inv (handleOneOccurrence g unit true).1 := by
  unfold handleOneOccurrence
  apply foldl_fst_pres
  · intro x num hnum hP
    show Inv (if countNum g unit num ≠ 1 then x
      else match unit.find? (fun p =>
          decide (num ∈ (getPos x.1 p).options) && (getPos x.1 p).value == 0) with
        | none => x
        | some p =>
          (if true then
            updatePos (setPos x.1 p { getPos x.1 p with options := [num], value := num })
              (getPos x.1 p).pos
          else setPos x.1 p { getPos x.1 p with options := [num], value := num }, true)).1
    refine ite_fst_inv (fun _ => hP) (fun _ => ?_)
    rcases hfind : unit.find? (fun p =>
        decide (num ∈ (getPos x.1 p).options) && (getPos x.1 p).value == 0) with _ | p
    · exact hP
    · have hmem := List.mem_of_find?_eq_some hfind
      have hpred := List.find?_some hfind
      simp only [Bool.and_eq_true, decide_eq_true_eq, beq_iff_eq] at hpred
      have hpV := allUnits_valid hu hmem
      have hpos := hP.posOk p hpV
      show Inv (updatePos (setPos x.1 p { getPos x.1 p with options := [num], value := num })
        (getPos x.1 p).pos)
      rw [hpos]
      refine hP.assignUpdate hpV hpred.2 hpred.1 ?_
      intro a ha
      rw [List.mem_singleton.1 ha]
      exact hpred.1
  · exact hI

theorem solveOnlyOneOccurrence_inv {g : Grid} (hI : Inv g) :
    Inv (solveOnlyOneOccurrence g true).1 := by
  unfold solveOnlyOneOccurrence
  apply foldl_fst_pres
  · intro x unit hunit hP
    exact handleOneOccurrence_inv hunit hP
  · exact hI

theorem solveSinglePossibilitiesX_inv (fuel : Nat) {g : Grid} (hI : Inv g) :
    Inv (solveSinglePossibilitiesX fuel g).1 := by
  induction fuel generalizing g with
  | zero => exact hI
  | succ n ih =>
    rw [solveSinglePossibilitiesX]
    refine ite_fst_inv (fun _ => ?_) (fun _ => solveSinglePossibilities_inv hI)
    exact ih (solveSinglePossibilities_inv hI)

theorem solveOnlyOneOccurrenceX_inv (fuel : Nat) {g : Grid} (hI : Inv g) :
    Inv (solveOnlyOneOccurrenceX fuel g).1 := by
  induction fuel generalizing g with
  | zero => exact hI
  | succ n ih =>
    rw [solveOnlyOneOccurrenceX]
    refine ite_fst_inv (fun _ => ?_) (fun _ => solveOnlyOneOccurrence_inv hI)
    exact ih (solveOnlyOneOccurrence_inv hI)

theorem solveLoop_inv (fuel : Nat) : ∀ (n : Nat) {g : Grid}, Inv g → Inv (solveLoop fuel n g)
  | 0, _, hI => hI
  | n + 1, g, hI => by
    rw [solveLoop]
    have h2 : Inv (solveOnlyOneOccurrenceX fuel (solveSinglePossibilitiesX fuel g).1).1 :=
      solveOnlyOneOccurrenceX_inv fuel (solveSinglePossibilitiesX_inv fuel hI)
    exact ite_inv (fun _ => solveLoop_inv fuel n h2) (fun _ => h2)

theorem solversLoop_inv (fuel : Nat) (solvers : Finset SolverMethod) :
    ∀ (n : Nat) {g : Grid}, Inv g → Inv (solversLoop fuel solvers n g)
  | 0, _, hI => hI
  | n + 1, g, hI => by
    rw [solversLoop]
    have h1 : Inv (if SolverMethod.singlePossibility ∈ solvers
        then solveSinglePossibilitiesX fuel g else (g, false)).1 :=
      ite_fst_inv (fun _ => solveSinglePossibilitiesX_inv fuel hI) (fun _ => hI)
    have h2 : Inv (if SolverMethod.oneOccurrenceIn ∈ solvers
        then solveOnlyOneOccurrenceX fuel (if SolverMethod.singlePossibility ∈ solvers
          then solveSinglePossibilitiesX fuel g else (g, false)).1
        else ((if SolverMethod.singlePossibility ∈ solvers
          then solveSinglePossibilitiesX fuel g else (g, false)).1, false)).1 :=
      ite_fst_inv (fun _ => solveOnlyOneOccurrenceX_inv fuel h1) (fun _ => h1)
    exact ite_inv (fun _ => solversLoop_inv fuel solvers n h2) (fun _ => h2)

/-! ## The initial invariant and the success of `solve` -/

theorem mkGrid_length (b : List Nat) : (mkGrid b).length = b.length := by
  simp [mkGrid]

theorem getPos_mkGrid {b : List Nat} {p : Nat × Nat} (h : posToIdx p < b.length) :
    getPos (mkGrid b) p =
      { value := b.getD (posToIdx p) 0
        options := if b.getD (posToIdx p) 0 = 0 then oneToNine else [b.getD (posToIdx p) 0]
        pos := idxToPos (posToIdx p) } := by
  unfold getPos mkGrid
  rw [List.getD_eq_getElem?_getD, List.getElem?_map, List.getElem?_enum]
  rw [List.getElem?_eq_getElem h]
  simp [List.getD_eq_getElem?_getD, List.getElem?_eq_getElem h]

theorem value_mkGrid (b : List Nat) (p : Nat × Nat) :
    (getPos (mkGrid b) p).value = bval b p := by
  by_cases h : posToIdx p < b.length
  · rw [getPos_mkGrid h]
    rfl
  · unfold getPos bval
    rw [List.getD_eq_getElem?_getD, List.getElem?_eq_none
      (by rw [mkGrid_length]; omega)]
    rw [List.getD_eq_getElem?_getD, List.getElem?_eq_none (by omega)]
    rfl

theorem checkValidity_mkGrid_iff (b : List Nat) :
    checkValidity (mkGrid b) = true ↔ BoardValid b := by
  rw [checkValidity_iff_validG]
  constructor
  · intro h p q hp hq hne hu hnp hnq
    obtain ⟨u', hu', hpu, hqu⟩ := sameUnit_exists_unit hp hq hu
    have hpair := (h u' hu').pairs hpu hqu hne
    rw [value_mkGrid, value_mkGrid] at hpair
    exact hpair hnp hnq
  · intro h u hu
    refine unitValid_of_pairs (allUnits_nodup hu) ?_
    intro p hpu q hqu hne hnp hnq
    rw [value_mkGrid] at hnp hnq ⊢
    rw [value_mkGrid]
    exact h p q (allUnits_valid hu hpu) (allUnits_valid hu hqu) hne
      (allUnits_sameUnit hu hpu hqu) hnp hnq

theorem posOk_mkGrid {b : List Nat} (hlen : b.length = 81) :
    ∀ p, ValidPos p → (getPos (mkGrid b) p).pos = p := by
  intro p hp
  rw [getPos_mkGrid (by rw [hlen]; exact posToIdx_lt hp)]
  exact idxToPos_posToIdx hp

theorem inv_fillOptions {g : Grid} (hlen : g.length = 81)
    (hpos : ∀ p, ValidPos p → (getPos g p).pos = p) (hval : ValidG g) :
    Inv (fillOptions g) := by
  have hsh := fillOptions_shrink g
  refine ⟨hsh.len.trans hlen, fun p hp => (hsh.pos p).trans (hpos p hp),
    validG_of_value_eq hsh.value hval, ?_⟩
  intro p q hp hq hu hzp hnzq
  obtain ⟨hp1, hp2⟩ := id hp
  obtain ⟨hq1, hq2⟩ := id hq
  rw [hsh.value] at hzp hnzq
  rw [hsh.value q]
  have hunf : fillOptions g =
      ((List.range 3).flatMap fun rx => (List.range 3).map fun ry => (rx, ry)).foldl
        (fun g' rr => fillOptionsRegion g' rr.1 rr.2)
        ((List.range 9).foldl fillOptionsYRow ((List.range 9).foldl fillOptionsXCol g)) := by
    unfold fillOptions
    rfl
  rw [hunf]
  have hsh1 : ∀ g0 : Grid, Shrink g0 ((List.range 9).foldl fillOptionsXCol g0) :=
    fun g0 => foldl_shrink fillOptionsXCol fillOptionsXCol_shrink _ g0
  have hsh2 : ∀ g0 : Grid, Shrink g0 ((List.range 9).foldl fillOptionsYRow g0) :=
    fun g0 => foldl_shrink fillOptionsYRow fillOptionsYRow_shrink _ g0
  have hsh3 : ∀ g0 : Grid, Shrink g0
      (((List.range 3).flatMap fun rx => (List.range 3).map fun ry => (rx, ry)).foldl
        (fun g' rr => fillOptionsRegion g' rr.1 rr.2) g0) :=
    fun g0 => foldl_shrink (fun (g' : Grid) (rr : Nat × Nat) => fillOptionsRegion g' rr.1 rr.2)
      (fun g rr => fillOptionsRegion_shrink g rr.1 rr.2) _ g0
  have hDsh : ∀ ga gb : Grid, Shrink ga gb →
      (getPos g q).value ∉ (getPos ga p).options →
      (getPos g q).value ∉ (getPos gb p).options :=
    fun ga gb hs hD hmem => hD (hs.subset p hmem)
  rcases hu with hcol | hrow | ⟨hr1, hr2⟩
  · -- p and q share a column: cleared during the first fold, at x = p.1
    have hD : (getPos g q).value ∉ (getPos ((List.range 9).foldl fillOptionsXCol g) p).options := by
      refine foldl_eventually fillOptionsXCol (List.range 9) p.1 (List.mem_range.2 hp.1)
        fillOptionsXCol_shrink _ hDsh g ?_
      intro g' hg'
      have hpm : p ∈ colPositions p.1 := mem_colPositions.2 ⟨rfl, hp.2⟩
      have hqm : q ∈ colPositions p.1 := mem_colPositions.2 ⟨hcol.symm, hq.2⟩
      have hres := fillOptionsSeq_clears (g := g') hpm hqm
        (by rw [hg'.len, hlen]; exact posToIdx_lt hp)
        (by rw [hg'.value]; exact hzp)
        (by rw [hg'.value]; exact hnzq)
      rw [hg'.value] at hres
      rw [fillOptionsXCol_def]
      exact hres
    exact hDsh _ _ ((hsh2 _).comp (hsh3 _)) hD
  · -- p and q share a row: cleared during the second fold, at y = p.2
    have hD : (getPos g q).value ∉
        (getPos ((List.range 9).foldl fillOptionsYRow ((List.range 9).foldl fillOptionsXCol g)) p).options := by
      refine foldl_eventually fillOptionsYRow (List.range 9) p.2 (List.mem_range.2 hp.2)
        fillOptionsYRow_shrink _ hDsh ((List.range 9).foldl fillOptionsXCol g) ?_
      intro g' hg'
      have hg'' : Shrink g g' := (hsh1 g).comp hg'
      have hpm : p ∈ rowPositions p.2 := mem_rowPositions.2 ⟨rfl, hp.1⟩
      have hqm : q ∈ rowPositions p.2 := mem_rowPositions.2 ⟨hrow.symm, hq.1⟩
      have hres := fillOptionsSeq_clears (g := g') hpm hqm
        (by rw [hg''.len, hlen]; exact posToIdx_lt hp)
        (by rw [hg''.value]; exact hzp)
        (by rw [hg''.value]; exact hnzq)
      rw [hg''.value] at hres
      rw [fillOptionsYRow_def]
      exact hres
    exact hDsh _ _ (hsh3 _) hD
  · -- p and q share a region: cleared during the third fold
    refine foldl_eventually (fun (g' : Grid) (rr : Nat × Nat) => fillOptionsRegion g' rr.1 rr.2)
      ((List.range 3).flatMap fun rx => (List.range 3).map fun ry => (rx, ry))
      (p.1 / 3, p.2 / 3) ?_ (fun g rr => fillOptionsRegion_shrink g rr.1 rr.2) _ hDsh
      ((List.range 9).foldl fillOptionsYRow ((List.range 9).foldl fillOptionsXCol g)) ?_
    · simp only [List.mem_flatMap, List.mem_map, List.mem_range]
      exact ⟨p.1 / 3, by omega, p.2 / 3, by omega, rfl⟩
    · intro g' hg'
      have hg'' : Shrink g g' := ((hsh1 g).comp (hsh2 _)).comp hg'
      have hpm : p ∈ regionPositions (p.1 / 3) (p.2 / 3) :=
        mem_regionPositions.2 ⟨rfl, rfl, by omega, by omega⟩
      have hqm : q ∈ regionPositions (p.1 / 3) (p.2 / 3) :=
        mem_regionPositions.2 ⟨hr1.symm, hr2.symm, by omega, by omega⟩
      have hres := fillOptionsSeq_clears (g := g') hpm hqm
        (by rw [hg''.len, hlen]; exact posToIdx_lt hp)
        (by rw [hg''.value]; exact hzp)
        (by rw [hg''.value]; exact hnzq)
      rw [hg''.value] at hres
      show (getPos g q).value ∉ (getPos (fillOptionsRegion g' (p.1 / 3) (p.2 / 3)) p).options
      rw [fillOptionsRegion_def]
      exact hres

theorem inv_start {b : List Nat} (hlen : b.length = 81)
    (hv : checkValidity (mkGrid b) = true) : Inv (fillOptions (mkGrid b)) :=
  inv_fillOptions (by rw [mkGrid_length]; exact hlen) (posOk_mkGrid hlen)
    ((checkValidity_iff_validG _).1 hv)

theorem solve_ok {fuel : Nat} {b : List Nat} (hlen : b.length = 81)
    (hv : checkValidity (mkGrid b) = true) :
    solve fuel (initSolver b true) =
      .ok ({ grid := solveLoop fuel fuel (fillOptions (mkGrid b)),
             hasSolution := some (isSolved (solveLoop fuel fuel (fillOptions (mkGrid b)))),
             debug := true },
           isSolved (solveLoop fuel fuel (fillOptions (mkGrid b)))) := by
  have hfinal : checkValidity (solveLoop fuel fuel (fillOptions (mkGrid b))) = true :=
    (checkValidity_iff_validG _).2 (solveLoop_inv fuel fuel (inv_start hlen hv)).valid
  unfold solve initSolver
  simp [hv, hfinal]

theorem solveWithSolvers_ok {fuel : Nat} {solvers : Finset SolverMethod} {b : List Nat}
    (hlen : b.length = 81) (hv : checkValidity (mkGrid b) = true) :
    solveWithSolvers fuel solvers (initSolver b true) =
      .ok ({ grid := solversLoop fuel solvers fuel (fillOptions (mkGrid b)),
             hasSolution :=
               some (isSolved (solversLoop fuel solvers fuel (fillOptions (mkGrid b)))),
             debug := true },
           isSolved (solversLoop fuel solvers fuel (fillOptions (mkGrid b)))) := by
  have hfinal : checkValidity (solversLoop fuel solvers fuel (fillOptions (mkGrid b))) = true :=
    (checkValidity_iff_validG _).2 (solversLoop_inv fuel solvers fuel (inv_start hlen hv)).valid
  unfold solveWithSolvers initSolver
  simp [hv, hfinal]

theorem solve_invalid {fuel : Nat} {b : List Nat}
    (hv : checkValidity (mkGrid b) = false) :
    solve fuel (initSolver b true) = .error .invalidSudoku := by
  unfold solve initSolver
  simp [hv]

theorem isSolved_iff (g : Grid) : isSolved g = true ↔ ∀ sq ∈ g, sq.value ≠ 0 := by
  unfold isSolved
  simp [List.all_eq_true]

/-- C1: on an 81-cell board that passes `check_validity`, `Solver.solve()`
(with validation enabled) runs candidate narrowing (`_fill_options`) and
then the strategy fixed-point loop, returns `true` iff every cell of the
final grid carries a non-zero value, and stores that same boolean in
`has_solution`; on a board that violates row/column/region uniqueness it
raises `InvalidSudokuError` before any solving step.  Solver state is a
pure value here, so one instance's `solve` cannot affect another
instance. -/
theorem c1_solve_contract (fuel : Nat) (b : List Nat) (hlen : b.length = 81) :
    (checkValidity (mkGrid b) = true →
      solve fuel (initSolver b true) =
        .ok ({ grid := solveLoop fuel fuel (fillOptions (mkGrid b)),
               hasSolution := some (isSolved (solveLoop fuel fuel (fillOptions (mkGrid b)))),
               debug := true },
             isSolved (solveLoop fuel fuel (fillOptions (mkGrid b)))) ∧
      (isSolved (solveLoop fuel fuel (fillOptions (mkGrid b))) = true ↔
        ∀ sq ∈ solveLoop fuel fuel (fillOptions (mkGrid b)), sq.value ≠ 0)) ∧
    (checkValidity (mkGrid b) = false →
      solve fuel (initSolver b true) = .error SolveError.invalidSudoku) :=
  ⟨fun hv => ⟨solve_ok hlen hv, isSolved_iff _⟩, fun hv => solve_invalid hv⟩

/-- C8: `can_remove_number` returns `None` exactly when the addressed cell
is `0`, and otherwise returns exactly `is_solvable` of the board with that
single cell cleared. -/
theorem c8_canRemoveNumber_spec (fuel : Nat) (b : List Nat) (loc : Loc) :
    (canRemoveNumber fuel b loc = none ↔ boardGetLoc b loc = 0) ∧
    (boardGetLoc b loc ≠ 0 →
      canRemoveNumber fuel b loc = some (isSolvable fuel (boardSetLoc b loc 0))) := by
  unfold canRemoveNumber
  constructor
  · constructor
    · intro h
      by_contra hc
      rw [if_neg hc] at h
      cases h
    · intro h
      rw [if_pos h]
  · intro h
    rw [if_neg h]

theorem canRemoveNumberSt_spec (fuel : Nat) (b : List Nat) (loc : Loc) :
    canRemoveNumberSt fuel b loc = (canRemoveNumber fuel b loc, b) := by
  unfold canRemoveNumberSt canRemoveNumber
  split
  · rfl
  · rfl

theorem getRemovableNumbersSt_aux (fuel : Nat) (b : List Nat) :
    ∀ (l : List Nat) (acc : List (Option (Except SolveError Bool))),
      (l.foldl
        (fun acc i =>
          let r := canRemoveNumberSt fuel acc.2 (Sum.inl i)
          (acc.1 ++ [r.1], r.2))
        (acc, b)) = (acc ++ l.map (fun i => canRemoveNumber fuel b (Sum.inl i)), b) := by
  intro l
  induction l with
  | nil => intro acc; simp
  | cons a t ih =>
    intro acc
    rw [List.foldl_cons]
    have hstep : (let r := canRemoveNumberSt fuel (acc, b).2 (Sum.inl a);
        ((acc, b).1 ++ [r.1], r.2)) = (acc ++ [canRemoveNumber fuel b (Sum.inl a)], b) := by
      rw [canRemoveNumberSt_spec]
    rw [hstep, ih]
    simp

/-- C10: `can_remove_number`, `get_removable_numbers` and `is_solvable`
never write to the caller's board: with the board object's state threaded
explicitly, the state comes back unchanged (the cell is cleared on
`board.copy()` only), the returned answers agree with the pure functions
of the incoming values, and the `Solver` constructor builds its own grid
of fresh `SquareInfo` records from the values. -/
theorem c10_no_mutation (fuel : Nat) (b : List Nat) (loc : Loc) :
    (canRemoveNumberSt fuel b loc).2 = b ∧
    (canRemoveNumberSt fuel b loc).1 = canRemoveNumber fuel b loc ∧
    (getRemovableNumbersSt fuel b).2 = b ∧
    (getRemovableNumbersSt fuel b).1 = getRemovableNumbers fuel b ∧
    (initSolver b true).grid = mkGrid b := by
  refine ⟨by rw [canRemoveNumberSt_spec], by rw [canRemoveNumberSt_spec], ?_, ?_, rfl⟩
  · unfold getRemovableNumbersSt
    rw [getRemovableNumbersSt_aux]
  · unfold getRemovableNumbersSt getRemovableNumbers
    rw [getRemovableNumbersSt_aux]
    simp

/-- C3: the strategy-set resolution of `solve_filtered`: only an exclude
set gives "all minus excludes", only an include set gives exactly the
includes, both give includes minus excludes, neither gives all
strategies; an empty resolved set raises the configuration error; and a
resolved set equal to the full default set makes `solve_filtered` call
`solve()` itself. -/
theorem c3_strategy_set_resolution (fuel : Nat) (s : SolverState)
    (inc exc : Finset SolverMethod) :
    (Finset.univ \ exc ≠ ∅ → getSolvers none (some exc) none = .ok (Finset.univ \ exc)) ∧
    (inc ≠ ∅ → getSolvers none none (some inc) = .ok inc) ∧
    (inc \ exc ≠ ∅ → getSolvers none (some exc) (some inc) = .ok (inc \ exc)) ∧
    (getSolvers none none none = .ok Finset.univ) ∧
    (∀ (dflt : Option SolverFilterDefault) (e i : Option (Finset SolverMethod)),
      getSolvers dflt e i = .error SolveError.configError ↔ resolvedSolvers dflt e i = ∅) ∧
    (∀ (dflt : Option SolverFilterDefault) (i e : Option (Finset SolverMethod)),
      getSolvers dflt e i = .ok Finset.univ → solveFiltered fuel s dflt i e = solve fuel s) := by
  have hres1 : resolvedSolvers none (some exc) none = Finset.univ \ exc := by
    unfold resolvedSolvers
    simp
  have hres2 : resolvedSolvers none none (some inc) = inc := by
    unfold resolvedSolvers
    simp
  have hres3 : resolvedSolvers none (some exc) (some inc) = inc \ exc := by
    unfold resolvedSolvers
    simp
  have hres4 : resolvedSolvers none none none = Finset.univ := by
    unfold resolvedSolvers
    simp
  have hdef : ∀ (dflt : Option SolverFilterDefault) (e i : Option (Finset SolverMethod)),
      getSolvers dflt e i =
        if resolvedSolvers dflt e i = ∅ then .error SolveError.configError
        else .ok (resolvedSolvers dflt e i) := fun _ _ _ => rfl
  refine ⟨?_, ?_, ?_, ?_, ?_, ?_⟩
  · intro h
    rw [hdef, hres1, if_neg h]
  · intro h
    rw [hdef, hres2, if_neg h]
  · intro h
    rw [hdef, hres3, if_neg h]
  · rw [hdef, hres4, if_neg (by
      simp only [Finset.univ_eq_empty_iff]
      intro hemp
      exact hemp.elim' SolverMethod.oneOccurrenceIn)]
  · intro dflt e i
    rw [hdef]
    split
    · simp [*]
    · simp [*]
  · intro dflt i e h
    unfold solveFiltered
    rw [h]
    simp

theorem getSolvers_oneOcc :
    getSolvers none none (some {SolverMethod.oneOccurrenceIn}) =
      .ok {SolverMethod.oneOccurrenceIn} := by
  have hres : resolvedSolvers none none (some {SolverMethod.oneOccurrenceIn}) =
      {SolverMethod.oneOccurrenceIn} := by
    unfold resolvedSolvers
    simp
  show (if resolvedSolvers none none (some {SolverMethod.oneOccurrenceIn}) = ∅ then
      Except.error SolveError.configError
    else Except.ok (resolvedSolvers none none (some {SolverMethod.oneOccurrenceIn}))) = _
  rw [hres, if_neg (by decide)]

theorem oneOcc_ne_univ :
    ({SolverMethod.oneOccurrenceIn} : Finset SolverMethod) ≠ Finset.univ := by
  decide

theorem solveFiltered_oneOcc (fuel : Nat) (s : SolverState) :
    solveFiltered fuel s none (some {SolverMethod.oneOccurrenceIn}) none =
      solveWithSolvers fuel {SolverMethod.oneOccurrenceIn} s := by
  unfold solveFiltered
  rw [getSolvers_oneOcc]
  simp [oneOcc_ne_univ]

/-- C2: on a valid 81-cell board, `classify_board` returns exactly one of
the three classes: `unsolvable` iff the full `solve()` fails to assign
every cell, `easy` iff the full solve succeeds and the board is also
solvable with the restricted `{one_occurrence_in}` strategy set alone
(`is_easy`), and `hard` iff the full solve succeeds but the restricted
set does not.  (`Solver.classify_board` and `BoardClass` are absent from
`src/solver.py`; `classifyBoard` is modelled from the spec, see its
definition.) -/
theorem c2_classify_board (fuel : Nat) (b : List Nat) (hlen : b.length = 81)
    (hv : checkValidity (mkGrid b) = true) :
    ∃ c sFull sEasy, classifyBoard fuel b true = .ok c ∧
      isSolvable fuel b = .ok sFull ∧ isEasy fuel b = .ok sEasy ∧
      (c = BoardClass.unsolvable ↔ sFull = false) ∧
      (c = BoardClass.easy ↔ sFull = true ∧ sEasy = true) ∧
      (c = BoardClass.hard ↔ sFull = true ∧ sEasy = false) := by
  have hfull := @solve_ok fuel b hlen hv
  have heasy := @solveWithSolvers_ok fuel {SolverMethod.oneOccurrenceIn} b hlen hv
  set sF := isSolved (solveLoop fuel fuel (fillOptions (mkGrid b))) with hsF
  set sE := isSolved
    (solversLoop fuel {SolverMethod.oneOccurrenceIn} fuel (fillOptions (mkGrid b))) with hsE
  have hSolvable : isSolvable fuel b = .ok sF := by
    unfold isSolvable
    rw [hfull]
    rfl
  have hEasy : isEasy fuel b = .ok sE := by
    unfold isEasy
    rw [solveFiltered_oneOcc, heasy]
    rfl
  have hclass : classifyBoard fuel b true =
      .ok (if sF = false then BoardClass.unsolvable
        else if sE = true then BoardClass.easy else BoardClass.hard) := by
    unfold classifyBoard
    rw [hfull, solveFiltered_oneOcc, heasy]
    cases hF : sF <;> cases hE : sE <;>
      simp [hF, hE, bind, Except.bind, pure, Except.pure]
  refine ⟨_, sF, sE, hclass, hSolvable, hEasy, ?_, ?_, ?_⟩ <;>
    cases hF : sF <;> cases hE : sE <;> simp [hF, hE]

/-! ## C4: the flat/nested conversions -/

theorem getD_map_range {α : Type} (n : Nat) (f : Nat → α) (i : Nat) (d : α) :
    ((List.range n).map f).getD i d = if i < n then f i else d := by
  rw [List.getD_eq_getElem?_getD, List.getElem?_map]
  by_cases h : i < n
  · rw [List.getElem?_range h]
    simp [h]
  · rw [List.getElem?_eq_none (by simpa using h)]
    simp [h]

theorem flatten_getD {α : Type} (N : List (List α))
    (hL : ∀ r ∈ N, r.length = 9) (a b : Nat) (ha : a < 9) (d : α) :
    ∀ _ : b < N.length, N.flatten.getD (a + b * 9) d = (N.getD b []).getD a d := by
  induction N generalizing b with
  | nil => intro hb; cases hb
  | cons r t ih =>
    intro hb
    rw [List.flatten_cons]
    have hr : r.length = 9 := hL r (List.mem_cons_self r t)
    cases b with
    | zero =>
      rw [List.getD_append _ _ _ _ (by omega)]
      rfl
    | succ b' =>
      rw [List.getD_append_right _ _ _ _ (by omega)]
      have harith : a + (b' + 1) * 9 - r.length = a + b' * 9 := by omega
      rw [harith, ih (fun r hr => hL r (List.mem_cons_of_mem _ hr)) b' (by simpa using hb)]
      rfl

/-- C4 as stated is false: the round-trip
`nested_to_flat(flat_to_nested(F))` moves the entry at flat index 1 to
flat index 9 (it computes the transpose), shown here on the flat list
`0,...,80`. -/
theorem c4_roundtrip_counterexample :
    nestedToFlat (flatToNested (List.range 81)) ≠ List.range 81 ∧
    (nestedToFlat (flatToNested (List.range 81))).getD 1 0 = 9 ∧
    (List.range 81).getD 1 0 = 1 := by
  refine ⟨?_, by decide, by decide⟩
  intro h
  have h1 : (nestedToFlat (flatToNested (List.range 81))).getD 1 0 = 9 := by decide
  rw [h] at h1
  exact absurd h1 (by decide)

/-- C4 amended: `nested_to_flat` and `flat_to_nested` are bijections
between 81-entry flat lists and well-formed 9×9 nested lists, but the
round-trips equal the transpose, not the identity:
`flat_to_nested(nested_to_flat(N)) == swap_rows(N)`, and composing with
`swap_rows` restores the flat list exactly:
`nested_to_flat(swap_rows(flat_to_nested(F))) == F`.  (The exact
round-trip claimed by the spec holds only for transpose-symmetric data.) -/
theorem c4_roundtrips_transpose {α : Type} [Inhabited α] :
    (∀ N : List (List α), N.length = 9 → (∀ r ∈ N, r.length = 9) →
      flatToNested (nestedToFlat N) = swapRows N) ∧
    (∀ F : List α, F.length = 81 → nestedToFlat (swapRows (flatToNested F)) = F) := by
  constructor
  · intro N h9 hrows
    unfold flatToNested nestedToFlat swapRows
    refine List.map_congr_left ?_
    intro a ha
    rw [List.mem_range] at ha
    refine List.map_congr_left ?_
    intro b hb
    rw [List.mem_range] at hb
    show N.flatten.getD (posToIdx (a, b)) default = (N.getD b []).getD a default
    unfold posToIdx
    exact flatten_getD N hrows a b ha default (by omega)
  · intro F hF
    have hlenrows : ∀ r ∈ swapRows (flatToNested F), r.length = 9 := by
      intro r hr
      unfold swapRows at hr
      simp only [List.mem_map, List.mem_range] at hr
      obtain ⟨y, hy, rfl⟩ := hr
      simp
    have hlen9 : (swapRows (flatToNested F)).length = 9 := by
      unfold swapRows
      simp
    have hlenflat : ∀ (M : List (List α)), (∀ r ∈ M, r.length = 9) →
        M.flatten.length = 9 * M.length := by
      intro M
      induction M with
      | nil => intro _; rfl
      | cons r t ih =>
        intro hM
        rw [List.flatten_cons, List.length_append, hM r (List.mem_cons_self r t),
          ih (fun r hr => hM r (List.mem_cons_of_mem _ hr))]
        simp only [List.length_cons]
        ring
    have hlen81 : (nestedToFlat (swapRows (flatToNested F))).length = 81 := by
      unfold nestedToFlat
      rw [hlenflat _ hlenrows, hlen9]
    apply List.ext_getElem (by rw [hlen81, hF])
    intro i h1 h2
    have hi : i < 81 := by rwa [hlen81] at h1
    rw [← List.getD_eq_getElem _ default h1, ← List.getD_eq_getElem _ default h2]
    unfold nestedToFlat
    have h3 := flatten_getD (swapRows (flatToNested F)) hlenrows (i % 9) (i / 9)
      (by omega) default (by rw [hlen9]; omega)
    rw [show i % 9 + i / 9 * 9 = i from by omega] at h3
    rw [h3]
    have h4 : (swapRows (flatToNested F)).getD (i / 9) [] =
        (List.range 9).map fun x => ((flatToNested F).getD x []).getD (i / 9) default := by
      unfold swapRows
      rw [getD_map_range, if_pos (by omega)]
    rw [h4, getD_map_range, if_pos (by omega)]
    have h5 : (flatToNested F).getD (i % 9) [] =
        (List.range 9).map fun y => F.getD (posToIdx (i % 9, y)) default := by
      unfold flatToNested
      rw [getD_map_range, if_pos (by omega)]
    rw [h5, getD_map_range, if_pos (by omega)]
    unfold posToIdx
    rw [show i % 9 + i / 9 * 9 = i from by omega]

/-! ## C6/C7: the board transformations of `shuffled_board` -/

theorem getD_set {α : Type} (l : List α) (i j : Nat) (v d : α) :
    (l.set i v).getD j d = if i = j ∧ i < l.length then v else l.getD j d := by
  simp only [List.getD_eq_getElem?_getD, List.getElem?_set]
  rcases eq_or_ne i j with h1 | h1
  · rw [h1]
    by_cases h2 : j < l.length
    · simp [h2]
    · rw [List.getElem?_eq_none (by omega)]
      simp [h2]
  · simp [h1]

theorem copyColumn_length (src dst : List Nat) (fromX toX : Nat) :
    (copyColumn src dst fromX toX).length = dst.length := by
  unfold copyColumn
  generalize List.range 9 = ys
  induction ys generalizing dst with
  | nil => rfl
  | cons a t ih =>
    rw [List.foldl_cons, ih]
    exact List.length_set dst _ _

theorem copyColumn_getD_aux (src : List Nat) (fromX toX x y : Nat)
    (htx : toX < 9) (hx : x < 9) (hy : y < 9) :
    ∀ (ys : List Nat) (dst : List Nat), dst.length = 81 → (∀ a ∈ ys, a < 9) →
    ((ys.foldl (fun nb y' => nb.set (posToIdx (toX, y')) (src.getD (posToIdx (fromX, y')) 0))
        dst)).getD (posToIdx (x, y)) 0 =
      if x = toX ∧ y ∈ ys then src.getD (posToIdx (fromX, y)) 0
      else dst.getD (posToIdx (x, y)) 0 := by
  intro ys
  induction ys generalizing y with
  | nil =>
    intro dst _ _
    simp
  | cons a t ih =>
    intro dst hlen hys
    rw [List.foldl_cons]
    rw [ih y hy _ (by rw [List.length_set]; exact hlen)
      (fun a' h => hys a' (List.mem_cons_of_mem _ h))]
    have ha9 : a < 9 := hys a (List.mem_cons_self a t)
    by_cases hxt : x = toX
    · by_cases hyt : y ∈ t
      · rw [if_pos ⟨hxt, hyt⟩, if_pos ⟨hxt, List.mem_cons_of_mem _ hyt⟩]
      · rw [if_neg (fun hc => hyt hc.2)]
        by_cases hya : y = a
        · rw [if_pos ⟨hxt, by rw [hya]; exact List.mem_cons_self a t⟩]
          rw [getD_set, if_pos ⟨by rw [hxt, hya], by rw [hlen]; exact posToIdx_lt ⟨htx, ha9⟩⟩]
          rw [hya]
        · rw [if_neg (by rintro ⟨-, hc⟩; rcases List.mem_cons.1 hc with h | h; exact hya h; exact hyt h)]
          rw [getD_set, if_neg ?_]
          rintro ⟨hc, -⟩
          have := posToIdx_inj (p := (toX, a)) (q := (x, y)) ⟨htx, ha9⟩ ⟨hx, hy⟩ hc
          rw [Prod.mk.injEq] at this
          exact hya this.2.symm
    · rw [if_neg (fun hc => hxt hc.1), if_neg (fun hc => hxt hc.1)]
      rw [getD_set, if_neg ?_]
      rintro ⟨hc, -⟩
      have := posToIdx_inj (p := (toX, a)) (q := (x, y)) ⟨htx, ha9⟩ ⟨hx, hy⟩ hc
      rw [Prod.mk.injEq] at this
      exact hxt this.1.symm

theorem copyColumn_getD (src dst : List Nat) (fromX toX x y : Nat)
    (htx : toX < 9) (hx : x < 9) (hy : y < 9) (hlen : dst.length = 81) :
    (copyColumn src dst fromX toX).getD (posToIdx (x, y)) 0 =
      if x = toX then src.getD (posToIdx (fromX, y)) 0
      else dst.getD (posToIdx (x, y)) 0 := by
  unfold copyColumn
  rw [copyColumn_getD_aux src fromX toX x y htx hx hy (List.range 9) dst hlen
    (fun a h => List.mem_range.1 h)]
  by_cases hxt : x = toX
  · rw [if_pos ⟨hxt, List.mem_range.2 hy⟩, if_pos hxt]
  · rw [if_neg (fun hc => hxt hc.1), if_neg hxt]

theorem bval_copyColumn (src dst : List Nat) (fromX toX x y : Nat)
    (htx : toX < 9) (hx : x < 9) (hy : y < 9) (hlen : dst.length = 81) :
    bval (copyColumn src dst fromX toX) (x, y) =
      if x = toX then bval src (fromX, y) else bval dst (x, y) := by
  unfold bval
  exact copyColumn_getD src dst fromX toX x y htx hx hy hlen

attribute [irreducible] copyColumn

theorem withXColShuffled3_eq (b : List Nat) (x0 c0 c1 c2 : Nat) :
    withXColShuffled b x0 [c0, c1, c2] =
      copyColumn b (copyColumn b (copyColumn b b (x0 + 0) (x0 + c0)) (x0 + 1) (x0 + c1))
        (x0 + 2) (x0 + c2) := rfl

theorem bval_withXColShuffled3 (b : List Nat) (hb : b.length = 81) (x0 c0 c1 c2 : Nat)
    (h0 : x0 + c0 < 9) (h1 : x0 + c1 < 9) (h2 : x0 + c2 < 9) (x y : Nat)
    (hx : x < 9) (hy : y < 9) :
    bval (withXColShuffled b x0 [c0, c1, c2]) (x, y) =
      if x = x0 + c2 then bval b (x0 + 2, y)
      else if x = x0 + c1 then bval b (x0 + 1, y)
      else if x = x0 + c0 then bval b (x0 + 0, y)
      else bval b (x, y) := by
  rw [withXColShuffled3_eq]
  rw [bval_copyColumn _ _ _ _ _ _ h2 hx hy
    (by rw [copyColumn_length, copyColumn_length]; exact hb)]
  rw [bval_copyColumn _ _ _ _ _ _ h1 hx hy (by rw [copyColumn_length]; exact hb)]
  rw [bval_copyColumn _ _ _ _ _ _ h0 hx hy hb]

theorem withXColShuffled9_eq (b : List Nat) (s0 s1 s2 : Nat) :
    withXColShuffled b 0 (bandsToFlat [s0, s1, s2]) =
      copyColumn b (copyColumn b (copyColumn b (copyColumn b (copyColumn b (copyColumn b (copyColumn b (copyColumn b (copyColumn b b (0 + 0) (0 + (3 * s0))) (0 + 1) (0 + (3 * s0 + 1))) (0 + 2) (0 + (3 * s0 + 2))) (0 + 3) (0 + (3 * s1))) (0 + 4) (0 + (3 * s1 + 1))) (0 + 5) (0 + (3 * s1 + 2))) (0 + 6) (0 + (3 * s2))) (0 + 7) (0 + (3 * s2 + 1))) (0 + 8) (0 + (3 * s2 + 2)) := rfl

theorem bval_withXColShuffled9 (b : List Nat) (hb : b.length = 81) (s0 s1 s2 : Nat)
    (hs0 : s0 < 3) (hs1 : s1 < 3) (hs2 : s2 < 3) (x y : Nat) (hx : x < 9) (hy : y < 9) :
    bval (withXColShuffled b 0 (bandsToFlat [s0, s1, s2])) (x, y) =
      if x = (0 + (3 * s2 + 2)) then bval b ((0 + 8), y)
      else if x = (0 + (3 * s2 + 1)) then bval b ((0 + 7), y)
      else if x = (0 + (3 * s2)) then bval b ((0 + 6), y)
      else if x = (0 + (3 * s1 + 2)) then bval b ((0 + 5), y)
      else if x = (0 + (3 * s1 + 1)) then bval b ((0 + 4), y)
      else if x = (0 + (3 * s1)) then bval b ((0 + 3), y)
      else if x = (0 + (3 * s0 + 2)) then bval b ((0 + 2), y)
      else if x = (0 + (3 * s0 + 1)) then bval b ((0 + 1), y)
      else if x = (0 + (3 * s0)) then bval b ((0 + 0), y)
      else bval b (x, y) := by
  rw [withXColShuffled9_eq]
  rw [bval_copyColumn _ _ _ _ _ _ (by omega) hx hy (by rw [copyColumn_length, copyColumn_length, copyColumn_length, copyColumn_length, copyColumn_length, copyColumn_length, copyColumn_length, copyColumn_length]; exact hb)]
  rw [bval_copyColumn _ _ _ _ _ _ (by omega) hx hy (by rw [copyColumn_length, copyColumn_length, copyColumn_length, copyColumn_length, copyColumn_length, copyColumn_length, copyColumn_length]; exact hb)]
  rw [bval_copyColumn _ _ _ _ _ _ (by omega) hx hy (by rw [copyColumn_length, copyColumn_length, copyColumn_length, copyColumn_length, copyColumn_length, copyColumn_length]; exact hb)]
  rw [bval_copyColumn _ _ _ _ _ _ (by omega) hx hy (by rw [copyColumn_length, copyColumn_length, copyColumn_length, copyColumn_length, copyColumn_length]; exact hb)]
  rw [bval_copyColumn _ _ _ _ _ _ (by omega) hx hy (by rw [copyColumn_length, copyColumn_length, copyColumn_length, copyColumn_length]; exact hb)]
  rw [bval_copyColumn _ _ _ _ _ _ (by omega) hx hy (by rw [copyColumn_length, copyColumn_length, copyColumn_length]; exact hb)]
  rw [bval_copyColumn _ _ _ _ _ _ (by omega) hx hy (by rw [copyColumn_length, copyColumn_length]; exact hb)]
  rw [bval_copyColumn _ _ _ _ _ _ (by omega) hx hy (by rw [copyColumn_length]; exact hb)]
  rw [bval_copyColumn _ _ _ _ _ _ (by omega) hx hy hb]

theorem perm3_facts {cols : List Nat} (hperm : cols.Perm [0, 1, 2]) :
    ∃ c0 c1 c2, cols = [c0, c1, c2] ∧ c0 < 3 ∧ c1 < 3 ∧ c2 < 3 ∧
      c0 ≠ c1 ∧ c0 ≠ c2 ∧ c1 ≠ c2 := by
  obtain ⟨c0, c1, c2, rfl⟩ : ∃ c0 c1 c2, cols = [c0, c1, c2] := by
    have hlen := hperm.length_eq
    match cols, hlen with
    | [c0, c1, c2], _ => exact ⟨c0, c1, c2, rfl⟩
  have hmem : ∀ c ∈ [c0, c1, c2], c < 3 := by
    intro c hc
    have hc' := hperm.mem_iff.1 hc
    simp only [List.mem_cons, List.mem_singleton, List.not_mem_nil, or_false] at hc'
    omega
  have hnd : ([c0, c1, c2] : List Nat).Nodup := hperm.nodup_iff.2 (by decide)
  simp only [List.nodup_cons, List.mem_cons, List.mem_singleton, List.not_mem_nil,
    or_false, not_or, List.nodup_nil, and_true] at hnd
  exact ⟨c0, c1, c2, rfl, hmem c0 (by simp), hmem c1 (by simp), hmem c2 (by simp),
    hnd.1.1, hnd.1.2, hnd.2.1⟩

theorem isColPerm_withXColShuffled3 (b : List Nat) (hb : b.length = 81) (r : Nat)
    (hr : r < 3) (cols : List Nat) (hperm : cols.Perm [0, 1, 2]) :
    IsColPerm b (withXColShuffled b (r * 3) cols) := by
  obtain ⟨c0, c1, c2, rfl, hc0, hc1, hc2, h01, h02, h12⟩ := perm3_facts hperm
  refine ⟨by rw [withXColShuffled3_eq, copyColumn_length, copyColumn_length,
      copyColumn_length, hb],
    fun xx => if xx = r * 3 + c2 then r * 3 + 2 else if xx = r * 3 + c1 then r * 3 + 1
      else if xx = r * 3 + c0 then r * 3 + 0 else xx, ?_, ?_, ?_, ?_⟩
  · intro xx hxx
    dsimp only
    split_ifs <;> omega
  · intro x1 x2 hx1 hx2 heq
    dsimp only at heq
    split_ifs at heq <;> omega
  · intro x1 x2 hx1 hx2 hband
    dsimp only
    split_ifs <;> omega
  · intro x y hx hy
    rw [bval_withXColShuffled3 b hb (r * 3) c0 c1 c2 (by omega) (by omega) (by omega) x y hx hy]
    dsimp only
    split_ifs <;> rfl

set_option maxHeartbeats 1600000 in
theorem isColPerm_withXColShuffled9 (b : List Nat) (hb : b.length = 81)
    (bands : List Nat) (hperm : bands.Perm [0, 1, 2]) :
    IsColPerm b (withXColShuffled b 0 (bandsToFlat bands)) := by
  obtain ⟨s0, s1, s2, rfl, hs0, hs1, hs2, h01, h02, h12⟩ := perm3_facts hperm
  refine ⟨by rw [withXColShuffled9_eq]; simp only [copyColumn_length],
    fun xx => (if xx / 3 = s0 then 0 else if xx / 3 = s1 then 1 else 2) * 3 + xx % 3,
    ?_, ?_, ?_, ?_⟩
  · intro xx hxx
    dsimp only
    split_ifs <;> omega
  · intro x1 x2 hx1 hx2 heq
    dsimp only at heq
    split_ifs at heq <;> omega
  · intro x1 x2 hx1 hx2 hband
    dsimp only
    split_ifs <;> omega
  · intro x y hx hy
    rw [bval_withXColShuffled9 b hb s0 s1 s2 hs0 hs1 hs2 x y hx hy]
    dsimp only
    split_ifs <;>
      first
        | (exfalso; omega)
        | (refine congrArg (bval b) ?_
           simp only [Prod.mk.injEq]
           exact ⟨by omega, trivial⟩)

/-! ## Fully-assigned grids: the strategies are no-ops and `solve` reports
success.  Used for C7: `generate_random_board` starts from the fully
assigned base board. -/

theorem getPos_getD (g : Grid) (p : Nat × Nat) :
    getPos g p = g.getD (posToIdx p) default := by
  unfold getPos
  rfl

theorem posToIdx_idxToPos (i : Nat) : posToIdx (idxToPos i) = i := by
  simp only [posToIdx, idxToPos]
  omega

theorem AllAssigned.getPosNe {g : Grid} (h : AllAssigned g) {p : Nat × Nat}
    (hp : posToIdx p < g.length) : (getPos g p).value ≠ 0 := by
  rw [getPos_getD, List.getD_eq_getElem g default hp]
  exact h _ (List.getElem_mem hp)

theorem AllAssigned.ofShrinkGrid {g g' : Grid} (hs : Shrink g g') (h : AllAssigned g) :
    AllAssigned g' := by
  intro sq hsq
  obtain ⟨i, hi, rfl⟩ := List.mem_iff_getElem.1 hsq
  have hlt : posToIdx (idxToPos i) < g'.length := by rw [posToIdx_idxToPos]; exact hi
  have he : getPos g' (idxToPos i) = g'.get ⟨i, hi⟩ := by
    rw [getPos_getD, List.getD_eq_getElem g' default hlt]
    simp only [posToIdx_idxToPos]
    rfl
  have hv := hs.value (idxToPos i)
  rw [he] at hv
  have hne := h.getPosNe (p := idxToPos i)
    (by rw [posToIdx_idxToPos, ← hs.len]; exact hi)
  simp only [List.get_eq_getElem] at hv
  rw [hv]
  exact hne

theorem foldl_id_of_mem {α : Type _} {ι : Type _} (f : α → ι → α) (l : List ι) (a : α)
    (h : ∀ x ∈ l, f a x = a) : l.foldl f a = a := by
  induction l with
  | nil => rfl
  | cons x xs ih =>
    rw [List.foldl_cons, h x (List.mem_cons_self x xs)]
    exact ih fun y hy => h y (List.mem_cons_of_mem x hy)

theorem spStep_id {g : Grid} (hlen : g.length = 81) (hA : AllAssigned g) (u snd : Bool)
    {p : Nat × Nat} (hp : ValidPos p) : spStep u (g, snd) p = (g, snd) := by
  rw [spStep_def]
  rw [if_neg]
  intro hc
  exact hA.getPosNe (by rw [hlen]; exact posToIdx_lt hp) hc.1

theorem solveSinglePossibilities_id {g : Grid} (hlen : g.length = 81)
    (hA : AllAssigned g) (u : Bool) : solveSinglePossibilities g u = (g, false) := by
  unfold solveSinglePossibilities
  exact foldl_id_of_mem _ _ _ fun p hp => spStep_id hlen hA u false (mem_allPositionsXY.1 hp)

theorem solveSinglePossibilitiesX_id {g : Grid} (hlen : g.length = 81)
    (hA : AllAssigned g) (fuel : Nat) : solveSinglePossibilitiesX fuel g = (g, false) := by
  cases fuel with
  | zero => rfl
  | succ n =>
    unfold solveSinglePossibilitiesX
    rw [solveSinglePossibilities_id hlen hA true]
    rfl

theorem handleOneOccurrence_id {g : Grid} (hlen : g.length = 81) (hA : AllAssigned g)
    {unit : List (Nat × Nat)} (hu : unit ∈ allUnits) (u snd : Bool) :
    (fun (acc : Grid × Bool) unit =>
        (let r := handleOneOccurrence acc.1 unit u; ((r.1 : Grid), acc.2 || r.2)))
      (g, snd) unit = (g, snd) := by
  have hhandle : handleOneOccurrence g unit u = (g, false) := by
    unfold handleOneOccurrence
    refine foldl_id_of_mem _ _ _ fun num _ => ?_
    dsimp only
    by_cases hc : countNum g unit num ≠ 1
    · rw [if_pos hc]
    · rw [if_neg hc]
      have hfind : unit.find? (fun p =>
          decide (num ∈ (getPos g p).options) && ((getPos g p).value == 0)) = none := by
        rw [List.find?_eq_none]
        intro p hp
        have hne := hA.getPosNe (p := p)
          (by rw [hlen]; exact posToIdx_lt (allUnits_valid hu hp))
        simp [hne]
      rw [hfind]
  dsimp only
  rw [hhandle]
  simp

theorem solveOnlyOneOccurrence_id {g : Grid} (hlen : g.length = 81)
    (hA : AllAssigned g) (u : Bool) : solveOnlyOneOccurrence g u = (g, false) := by
  unfold solveOnlyOneOccurrence
  exact foldl_id_of_mem _ _ _ fun unit hu => handleOneOccurrence_id hlen hA hu u false

theorem solveOnlyOneOccurrenceX_id {g : Grid} (hlen : g.length = 81)
    (hA : AllAssigned g) (fuel : Nat) : solveOnlyOneOccurrenceX fuel g = (g, false) := by
  cases fuel with
  | zero => rfl
  | succ n =>
    unfold solveOnlyOneOccurrenceX
    rw [solveOnlyOneOccurrence_id hlen hA true]
    rfl

theorem solveLoop_id {g : Grid} (hlen : g.length = 81) (hA : AllAssigned g)
    (fuel n : Nat) : solveLoop fuel n g = g := by
  cases n with
  | zero => rfl
  | succ m =>
    unfold solveLoop
    rw [solveSinglePossibilitiesX_id hlen hA fuel]
    dsimp only
    rw [solveOnlyOneOccurrenceX_id hlen hA fuel]
    rfl

theorem isSolved_of_allAssigned {g : Grid} (hA : AllAssigned g) : isSolved g = true := by
  rw [isSolved_iff]
  exact hA

theorem allAssigned_mkGrid {b : List Nat} (hc : BoardComplete b) :
    AllAssigned (mkGrid b) := by
  intro sq hsq
  obtain ⟨i, hi, rfl⟩ := List.mem_iff_getElem.1 hsq
  have hib : i < b.length := by rw [mkGrid_length] at hi; exact hi
  have hi81 : i < 81 := hc.1 ▸ hib
  have hval : (mkGrid b)[i].value = b[i] := by
    simp [mkGrid, List.getElem_enum]
  rw [hval]
  have hvp : ValidPos (idxToPos i) := by
    simp only [idxToPos, ValidPos]
    omega
  have hlow := (hc.2 (idxToPos i) hvp).1
  simp only [bval, posToIdx_idxToPos] at hlow
  rw [List.getD_eq_getElem b 0 hib] at hlow
  omega

theorem solve_complete {fuel : Nat} {b : List Nat} (hv : BoardValid b)
    (hc : BoardComplete b) : isSolvable fuel b = .ok true := by
  have hval : checkValidity (mkGrid b) = true := (checkValidity_mkGrid_iff b).2 hv
  have hA : AllAssigned (fillOptions (mkGrid b)) :=
    (allAssigned_mkGrid hc).ofShrinkGrid (fillOptions_shrink (mkGrid b))
  have hlen : (fillOptions (mkGrid b)).length = 81 := by
    rw [(fillOptions_shrink (mkGrid b)).len, mkGrid_length, hc.1]
  unfold isSolvable
  rw [solve_ok hc.1 hval]
  rw [solveLoop_id hlen hA fuel fuel]
  rw [isSolved_of_allAssigned hA]
  rfl

/-! ## The board transformations of `shuffled_board` preserve validity and
full assignment (C7), and the two positional shuffles coincide (C6). -/

theorem withYRowShuffled_eq_withXColShuffled (b : List Nat) (y0 : Nat)
    (newRows : List Nat) : withYRowShuffled b y0 newRows = withXColShuffled b y0 newRows :=
  rfl

theorem IsColPerm.boardValid {b b' : List Nat} (h : IsColPerm b b')
    (hv : BoardValid b) : BoardValid b' := by
  obtain ⟨hlen, f, hf9, hinj, hband, hval⟩ := h
  intro p q hp hq hne hu hnp hnq
  obtain ⟨px, py⟩ := p
  obtain ⟨qx, qy⟩ := q
  obtain ⟨hpx, hpy⟩ := id hp
  obtain ⟨hqx, hqy⟩ := id hq
  rw [hval px py hpx hpy] at hnp ⊢
  rw [hval qx qy hqx hqy] at hnq ⊢
  refine hv (f px, py) (f qx, qy) ⟨hf9 px hpx, hpy⟩ ⟨hf9 qx hqx, hqy⟩ ?_ ?_ hnp hnq
  · intro hcontra
    have h1 : f px = f qx := congrArg Prod.fst hcontra
    have h2 : py = qy := congrArg Prod.snd hcontra
    exact hne (by rw [hinj px qx hpx hqx h1, h2])
  · rcases hu with hcol | hrow | ⟨hx3, hy3⟩
    · exact Or.inl (by simp only at hcol; rw [hcol])
    · exact Or.inr (Or.inl (by simpa using hrow))
    · exact Or.inr (Or.inr ⟨hband px qx hpx hqx (by simpa using hx3), by simpa using hy3⟩)

theorem IsColPerm.boardComplete {b b' : List Nat} (h : IsColPerm b b')
    (hc : BoardComplete b) : BoardComplete b' := by
  obtain ⟨hlen, f, hf9, hinj, hband, hval⟩ := h
  refine ⟨by rw [hlen, hc.1], ?_⟩
  intro p hp
  obtain ⟨px, py⟩ := p
  obtain ⟨hpx, hpy⟩ := id hp
  rw [hval px py hpx hpy]
  exact hc.2 (f px, py) ⟨hf9 px hpx, hpy⟩

theorem shuffledXColsInXRegion_pres {b : List Nat} (hv : BoardValid b)
    (hc : BoardComplete b) (r : Nat) (hr : r < 3) {cols : List Nat}
    (hperm : cols.Perm [0, 1, 2]) :
    BoardValid (shuffledXColsInXRegion b cols r) ∧
      BoardComplete (shuffledXColsInXRegion b cols r) := by
  have h : IsColPerm b (withXColShuffled b (r * 3) cols) :=
    isColPerm_withXColShuffled3 b hc.1 r hr cols hperm
  exact ⟨h.boardValid hv, h.boardComplete hc⟩

theorem shuffledYRowsInYRegion_pres {b : List Nat} (hv : BoardValid b)
    (hc : BoardComplete b) (r : Nat) (hr : r < 3) {rows : List Nat}
    (hperm : rows.Perm [0, 1, 2]) :
    BoardValid (shuffledYRowsInYRegion b rows r) ∧
      BoardComplete (shuffledYRowsInYRegion b rows r) := by
  have h : IsColPerm b (withXColShuffled b (r * 3) rows) :=
    isColPerm_withXColShuffled3 b hc.1 r hr rows hperm
  exact ⟨h.boardValid hv, h.boardComplete hc⟩

theorem shuffledXRegionCols_pres {b : List Nat} (hv : BoardValid b)
    (hc : BoardComplete b) {bands : List Nat} (hperm : bands.Perm [0, 1, 2]) :
    BoardValid (shuffledXRegionCols b bands) ∧
      BoardComplete (shuffledXRegionCols b bands) := by
  have h : IsColPerm b (withXColShuffled b 0 (bandsToFlat bands)) :=
    isColPerm_withXColShuffled9 b hc.1 bands hperm
  exact ⟨h.boardValid hv, h.boardComplete hc⟩

theorem shuffledYRegionRows_pres {b : List Nat} (hv : BoardValid b)
    (hc : BoardComplete b) {bands : List Nat} (hperm : bands.Perm [0, 1, 2]) :
    BoardValid (shuffledYRegionRows b bands) ∧
      BoardComplete (shuffledYRegionRows b bands) := by
  have h : IsColPerm b (withXColShuffled b 0 (bandsToFlat bands)) :=
    isColPerm_withXColShuffled9 b hc.1 bands hperm
  exact ⟨h.boardValid hv, h.boardComplete hc⟩

theorem getD_map_range' (n : Nat) (f : Nat → Nat) (i d : Nat) :
    ((List.range n).map f).getD i d = if i < n then f i else d := by
  by_cases hi : i < n
  · rw [if_pos hi, List.getD_eq_getElem _ _ (by simpa using hi)]
    simp
  · rw [if_neg hi, List.getD_eq_default _ _ (by simpa using hi)]

theorem shuffledNumbers_length (b digits : List Nat) :
    (shuffledNumbers b digits).length = 81 := by
  simp [shuffledNumbers]

theorem bval_shuffledNumbers (b digits : List Nat) {p : Nat × Nat} (hp : ValidPos p) :
    bval (shuffledNumbers b digits) p =
      if bval b p = 0 then 0 else digits.getD (bval b p - 1) 0 := by
  unfold shuffledNumbers bval
  rw [getD_map_range', if_pos (posToIdx_lt hp)]

theorem digits_facts {digits : List Nat} (hperm : digits.Perm oneToNine) :
    digits.length = 9 ∧
    (∀ i, i < 9 → 1 ≤ digits.getD i 0 ∧ digits.getD i 0 ≤ 9) ∧
    (∀ i j, i < 9 → j < 9 → digits.getD i 0 = digits.getD j 0 → i = j) := by
  have hlen : digits.length = 9 := by
    rw [hperm.length_eq]
    rfl
  have hmem : ∀ i, i < 9 → 1 ≤ digits.getD i 0 ∧ digits.getD i 0 ≤ 9 := by
    intro i hi
    have hd : digits.getD i 0 ∈ digits := by
      rw [List.getD_eq_getElem _ _ (by omega)]
      exact List.getElem_mem (by omega)
    have hd' := hperm.mem_iff.1 hd
    simp only [oneToNine, List.mem_map, List.mem_range] at hd'
    obtain ⟨k, hk, hkd⟩ := hd'
    omega
  have hnd : digits.Nodup := hperm.nodup_iff.2 (by decide)
  refine ⟨hlen, hmem, ?_⟩
  intro i j hi hj heq
  have hi' : i < digits.length := by omega
  have hj' : j < digits.length := by omega
  rw [List.getD_eq_getElem digits 0 hi', List.getD_eq_getElem digits 0 hj'] at heq
  exact hnd.getElem_inj_iff.1 heq

theorem shuffledNumbers_pres {b digits : List Nat} (hv : BoardValid b)
    (hc : BoardComplete b) (hperm : digits.Perm oneToNine) :
    BoardValid (shuffledNumbers b digits) ∧ BoardComplete (shuffledNumbers b digits) := by
  obtain ⟨hdl, hdm, hdi⟩ := digits_facts hperm
  have hrange : ∀ p, ValidPos p → 1 ≤ bval b p ∧ bval b p ≤ 9 := hc.2
  constructor
  · intro p q hp hq hne hu hnp hnq
    rw [bval_shuffledNumbers b digits hp] at hnp ⊢
    rw [bval_shuffledNumbers b digits hq] at hnq ⊢
    have hbp := hrange p hp
    have hbq := hrange q hq
    rw [if_neg (by omega)] at hnp ⊢
    rw [if_neg (by omega)] at hnq ⊢
    intro heq
    have hvq := hv p q hp hq hne hu (by omega) (by omega)
    have := hdi (bval b p - 1) (bval b q - 1) (by omega) (by omega) heq
    omega
  · refine ⟨shuffledNumbers_length b digits, ?_⟩
    intro p hp
    rw [bval_shuffledNumbers b digits hp]
    have hbp := hrange p hp
    rw [if_neg (by omega)]
    exact hdm (bval b p - 1) (by omega)

theorem shuffledBoard_pres {b : List Nat} (hv : BoardValid b) (hc : BoardComplete b)
    {d : ShuffleDraws} (hd : PermDraws d) :
    BoardValid (shuffledBoard b d) ∧ BoardComplete (shuffledBoard b d) := by
  obtain ⟨hcols, hrows, hcb, hrb, hdig⟩ := hd
  have e1 : (List.range 3).foldl
      (fun b rx => shuffledXColsInXRegion b (d.colsInBand rx) rx) b =
      shuffledXColsInXRegion (shuffledXColsInXRegion
        (shuffledXColsInXRegion b (d.colsInBand 0) 0) (d.colsInBand 1) 1)
        (d.colsInBand 2) 2 := rfl
  have h1 := shuffledXColsInXRegion_pres hv hc 0 (by omega) (hcols 0 (by omega))
  have h2 := shuffledXColsInXRegion_pres h1.1 h1.2 1 (by omega) (hcols 1 (by omega))
  have h3 := shuffledXColsInXRegion_pres h2.1 h2.2 2 (by omega) (hcols 2 (by omega))
  have h4 := shuffledYRowsInYRegion_pres h3.1 h3.2 0 (by omega) (hrows 0 (by omega))
  have h5 := shuffledYRowsInYRegion_pres h4.1 h4.2 1 (by omega) (hrows 1 (by omega))
  have h6 := shuffledYRowsInYRegion_pres h5.1 h5.2 2 (by omega) (hrows 2 (by omega))
  have h7 := shuffledXRegionCols_pres h6.1 h6.2 hcb
  have h8 := shuffledYRegionRows_pres h7.1 h7.2 hrb
  have h9 := shuffledNumbers_pres h8.1 h8.2 hdig
  exact h9

/-! ## C5: `_find_boards_matching`.  First, the boards handled inside a
trial stay 81 cells long and Sudoku-valid, so `is_solvable` never raises
there. -/

theorem boardGetLoc_eq (b : List Nat) (l : Loc) : boardGetLoc b l = b.getD (locIdx l) 0 := by
  cases l <;> rfl

theorem boardSetLoc_eq (b : List Nat) (l : Loc) (v : Nat) :
    boardSetLoc b l v = b.set (locIdx l) v := by
  cases l <;> rfl

theorem length_boardSetLoc (b : List Nat) (l : Loc) (v : Nat) :
    (boardSetLoc b l v).length = b.length := by
  rw [boardSetLoc_eq]
  exact List.length_set b (locIdx l) v

theorem bval_set_eq (b : List Nat) (i : Nat) (v : Nat) (p : Nat × Nat) :
    bval (b.set i v) p = if i = posToIdx p ∧ i < b.length then v else bval b p := by
  unfold bval
  exact getD_set b i (posToIdx p) v 0

theorem boardValid_clear {b : List Nat} (hv : BoardValid b) (l : Loc) :
    BoardValid (boardSetLoc b l 0) := by
  rw [boardSetLoc_eq]
  intro p q hp hq hne hu hnp hnq
  rw [bval_set_eq] at hnp
  rw [bval_set_eq] at hnq
  rw [bval_set_eq, bval_set_eq]
  rcases hcp : decide (locIdx l = posToIdx p ∧ locIdx l < b.length) with _ | _
  · have hcp' := of_decide_eq_false hcp
    rw [if_neg hcp'] at hnp ⊢
    rcases hcq : decide (locIdx l = posToIdx q ∧ locIdx l < b.length) with _ | _
    · have hcq' := of_decide_eq_false hcq
      rw [if_neg hcq'] at hnq ⊢
      exact hv p q hp hq hne hu hnp hnq
    · have hcq' := of_decide_eq_true hcq
      rw [if_pos hcq'] at hnq
      exact absurd rfl hnq
  · have hcp' := of_decide_eq_true hcp
    rw [if_pos hcp'] at hnp
    exact absurd rfl hnp

theorem boardSetLoc_cancel (b : List Nat) (l : Loc) :
    boardSetLoc (boardSetLoc b l 0) l (boardGetLoc b l) = b := by
  rw [boardSetLoc_eq, boardSetLoc_eq, boardGetLoc_eq, List.set_set]
  by_cases h : locIdx l < b.length
  · rw [List.getD_eq_getElem b 0 h]
    apply List.ext_getElem?
    intro i
    rw [List.getElem?_set]
    split
    · next heq =>
      rw [← heq]
      exact (List.getElem?_eq_getElem h).symm
    · rfl
  · rw [List.set_eq_of_length_le (by omega)]

theorem isSolvable_eq {fuel : Nat} {b : List Nat} (hlen : b.length = 81)
    (hv : BoardValid b) :
    isSolvable fuel b = .ok (isSolved (solveLoop fuel fuel (fillOptions (mkGrid b)))) := by
  unfold isSolvable
  rw [solve_ok hlen ((checkValidity_mkGrid_iff b).2 hv)]
  rfl

theorem solvedOk_eq {fuel : Nat} {b : List Nat} (hlen : b.length = 81)
    (hv : BoardValid b) :
    solvedOk fuel b = isSolved (solveLoop fuel fuel (fillOptions (mkGrid b))) := by
  unfold solvedOk
  rw [isSolvable_eq hlen hv]

theorem isSolvable_ok {fuel : Nat} {b : List Nat} (hlen : b.length = 81)
    (hv : BoardValid b) : isSolvable fuel b = .ok (solvedOk fuel b) := by
  rw [isSolvable_eq hlen hv, solvedOk_eq hlen hv]

theorem extendTrial_ok (fuel roLen : Nat) (ps : List Loc) :
    ∀ (rmI : Int) (b : List Nat), b.length = 81 → BoardValid b →
    extendTrial fuel roLen rmI b ps = .ok (extendTrialP fuel roLen rmI b ps) := by
  induction ps with
  | nil => intro rmI b _ _; rfl
  | cons pos rest ih =>
    intro rmI b hlen hv
    have hlen' : (boardSetLoc b pos 0).length = 81 := by rw [length_boardSetLoc, hlen]
    have hv' : BoardValid (boardSetLoc b pos 0) := boardValid_clear hv pos
    unfold extendTrial extendTrialP
    dsimp only
    rw [isSolvable_ok hlen' hv']
    rcases hs : solvedOk fuel (boardSetLoc b pos 0) with _ | _ <;>
      simp only [hs, bind, Except.bind, pure, Except.pure, Bool.false_eq_true,
        if_true, if_false, ite_true, ite_false]
    exact ih (rmI + 1) (boardSetLoc b pos 0) hlen' hv'

theorem removeAll_length (b : List Nat) (ps : List Loc) :
    (removeAll b ps).length = b.length := by
  induction ps generalizing b with
  | nil => rfl
  | cons p rest ih =>
    unfold removeAll at *
    rw [List.foldl_cons, ih, length_boardSetLoc]

theorem removeAll_valid {b : List Nat} (hv : BoardValid b) (ps : List Loc) :
    BoardValid (removeAll b ps) := by
  induction ps generalizing b with
  | nil => exact hv
  | cons p rest ih =>
    unfold removeAll at *
    rw [List.foldl_cons]
    exact ih (boardValid_clear hv p)

theorem fbmTrial_ok {fuel : Nat} {ro : List Loc} {wantMin : Nat} {b0 : List Nat}
    (hlen : b0.length = 81) (hv : BoardValid b0) :
    fbmTrial fuel ro wantMin b0 = .ok (fbmTrialP fuel ro wantMin b0) := by
  have hlen1 : (removeAll b0 (ro.take wantMin)).length = 81 := by
    rw [removeAll_length, hlen]
  have hv1 : BoardValid (removeAll b0 (ro.take wantMin)) := removeAll_valid hv _
  unfold fbmTrial fbmTrialP
  dsimp only
  rw [isSolvable_ok hlen1 hv1]
  rcases hs : solvedOk fuel (removeAll b0 (ro.take wantMin)) with _ | _
  · simp only [hs, bind, Except.bind, pure, Except.pure, Bool.not_false, Bool.not_true,
      Bool.false_eq_true, if_true, if_false, ite_true, ite_false]
  · simp only [hs, bind, Except.bind, pure, Except.pure, Bool.not_false, Bool.not_true,
      Bool.false_eq_true, if_true, if_false, ite_true, ite_false]
    rw [extendTrial_ok fuel ro.length (ro.drop wantMin)
      (wantMin : Int) (removeAll b0 (ro.take wantMin)) hlen1 hv1]

theorem extendTrialP_fst_le (fuel roLen : Nat) (ps : List Loc) :
    ∀ (rmI : Int) (b : List Nat), rmI + ps.length ≤ (roLen : Int) →
    (extendTrialP fuel roLen rmI b ps).1 ≤ (roLen : Int) - 1 := by
  induction ps with
  | nil => intro rmI b _; simp [extendTrialP]
  | cons pos rest ih =>
    intro rmI b hle
    unfold extendTrialP
    dsimp only
    split
    · exact ih (rmI + 1) (boardSetLoc b pos 0) (by simp at hle ⊢; omega)
    · simp at hle ⊢
      omega

/-! ## The base board of the generator is a valid, fully assigned Sudoku. -/

theorem baseBoardL_valid : BoardValid baseBoardL := by
  have h : ((List.range 9).all fun px => (List.range 9).all fun py =>
      (List.range 9).all fun qx => (List.range 9).all fun qy =>
        (!(px = qx ∨ py = qy ∨ (px / 3 = qx / 3 ∧ py / 3 = qy / 3) : Bool)) ||
        (px == qx && py == qy) || (bval baseBoardL (px, py) == 0) ||
        (bval baseBoardL (qx, qy) == 0) ||
        (bval baseBoardL (px, py) != bval baseBoardL (qx, qy))) = true := by decide
  simp only [List.all_eq_true, List.mem_range, Bool.or_eq_true, decide_eq_true_eq,
    Bool.not_eq_true', decide_eq_false_iff_not, Bool.and_eq_true, beq_iff_eq,
    bne_iff_ne] at h
  intro p q hp hq hne hu hnp hnq
  obtain ⟨px, py⟩ := p
  obtain ⟨qx, qy⟩ := q
  obtain ⟨hpx, hpy⟩ := id hp
  obtain ⟨hqx, hqy⟩ := id hq
  have hh := h px hpx py hpy qx hqx qy hqy
  rcases hh with (((hh | ⟨h1, h2⟩) | hh) | hh) | hh
  · exact absurd hu hh
  · exact absurd (by rw [h1, h2]) hne
  · exact absurd hh hnp
  · exact absurd hh hnq
  · exact hh

theorem baseBoardL_complete : BoardComplete baseBoardL := by
  refine ⟨by rfl, ?_⟩
  have h : ∀ i, i < 81 → 1 ≤ baseBoardL.getD i 0 ∧ baseBoardL.getD i 0 ≤ 9 := by decide
  intro p hp
  exact h (posToIdx p) (posToIdx_lt hp)

theorem generateRandomBoard_valid {d : ShuffleDraws} (hd : PermDraws d) :
    BoardValid (generateRandomBoard d) ∧ BoardComplete (generateRandomBoard d) :=
  shuffledBoard_pres baseBoardL_valid baseBoardL_complete hd

/-! ## The trial loop of `_find_boards_matching` -/

theorem FbmInv.notFull {fuel : Nat} {ro : List Loc} {wantMin : Nat}
    {draws : Nat → ShuffleDraws} {i : Nat} {bestI : Int} {best : Option (List Nat)}
    (h : FbmInv fuel ro wantMin draws i bestI best) :
    ∀ j, j < i → ¬ trialFull fuel ro wantMin draws j := by
  intro j hj ⟨lb, hlb, hfull⟩
  rcases h with ⟨_, _, hnone⟩ | ⟨bb, jb, _, _, _, hlt, hmax, _⟩
  · rw [hnone j hj] at hlb
    exact Option.noConfusion hlb
  · have := hmax j hj lb hlb
    omega

theorem trialOutcome_fst_le {fuel : Nat} {ro : List Loc} {wantMin : Nat}
    {draws : Nat → ShuffleDraws} {j : Nat} {lb : Int × List Nat}
    (hmin : wantMin ≤ ro.length)
    (h : trialOutcome fuel ro wantMin draws j = some lb) :
    lb.1 ≤ (ro.length : Int) - 1 := by
  unfold trialOutcome fbmTrialP at h
  dsimp only at h
  split at h
  · exact Option.noConfusion h
  · have hlb := Option.some.inj h
    have hle : (wantMin : Int) + (ro.drop wantMin).length ≤ (ro.length : Int) := by
      rw [List.length_drop]
      omega
    have := extendTrialP_fst_le fuel ro.length (ro.drop wantMin) (wantMin : Int)
      (removeAll (generateRandomBoard (draws j)) (ro.take wantMin)) hle
    rw [hlb] at this
    exact this

theorem fbmTrial_outcome {fuel : Nat} {ro : List Loc} {wantMin : Nat}
    {draws : Nat → ShuffleDraws} (hperm : ∀ i, PermDraws (draws i)) (i : Nat) :
    fbmTrial fuel ro wantMin (generateRandomBoard (draws i)) =
      .ok (trialOutcome fuel ro wantMin draws i) := by
  obtain ⟨hv, hc⟩ := generateRandomBoard_valid (hperm i)
  exact fbmTrial_ok hc.1 hv

theorem fbmAux_succ (fuel : Nat) (ro : List Loc) (wantMin : Nat)
    (draws : Nat → ShuffleDraws) (n i : Nat) (bestI : Int) (best : Option (List Nat)) :
    fbmAux fuel ro wantMin draws (n + 1) i bestI best = (do
      let randBoard := generateRandomBoard (draws i)
      match ← fbmTrial fuel ro wantMin randBoard with
      | none => fbmAux fuel ro wantMin draws n (i + 1) bestI best
      | some lb =>
        let bestP := if best.isNone || lb.1 > bestI then (lb.1, some lb.2) else (bestI, best)
        if bestP.1 ≥ (ro.length : Int) - 1 then
          if bestP.1 = (ro.length : Int) - 1 then pure (true, bestP.1, bestP.2)
          else .error .assertionError
        else fbmAux fuel ro wantMin draws n (i + 1) bestP.1 bestP.2) := rfl

theorem fbmAux_spec (fuel : Nat) (ro : List Loc) (wantMin : Nat)
    (draws : Nat → ShuffleDraws) (hperm : ∀ i, PermDraws (draws i))
    (hmin : wantMin ≤ ro.length) :
    ∀ (n i : Nat) (bestI : Int) (best : Option (List Nat)),
      FbmInv fuel ro wantMin draws i bestI best →
      ∃ success bI bB,
        fbmAux fuel ro wantMin draws n i bestI best = .ok (success, bI, bB) ∧
        (success = true ↔ ∃ j, j < i + n ∧ trialFull fuel ro wantMin draws j) ∧
        (success = true →
          ∃ j lb, j < i + n ∧ trialOutcome fuel ro wantMin draws j = some lb ∧
            lb.1 = (ro.length : Int) - 1 ∧
            (∀ k, k < j → ¬ trialFull fuel ro wantMin draws k) ∧
            bI = (ro.length : Int) - 1 ∧ bB = some lb.2) ∧
        (success = false → FbmInv fuel ro wantMin draws (i + n) bI bB) := by
  intro n
  induction n with
  | zero =>
    intro i bestI best hinv
    refine ⟨false, bestI, best, rfl, ?_, ?_, ?_⟩
    · constructor
      · intro h
        exact absurd h (by simp)
      · rintro ⟨j, hj, hfull⟩
        exact absurd hfull (hinv.notFull j (by omega))
    · intro h
      exact absurd h (by simp)
    · intro _
      exact hinv
  | succ n ih =>
    intro i bestI best hinv
    have hNF := hinv.notFull
    rcases ho : trialOutcome fuel ro wantMin draws i with _ | lb
    · -- gate failed: continue with unchanged best
      have heq : fbmAux fuel ro wantMin draws (n + 1) i bestI best =
          fbmAux fuel ro wantMin draws n (i + 1) bestI best := by
        rw [fbmAux_succ]
        dsimp only
        rw [fbmTrial_outcome hperm i, ho]
        simp only [bind, Except.bind]
      have hinv' : FbmInv fuel ro wantMin draws (i + 1) bestI best := by
        rcases hinv with ⟨hb, hbi, hnone⟩ | ⟨bb, jb, hb, hjb, hout, hlt, hmax, hstrict⟩
        · refine Or.inl ⟨hb, hbi, fun j hj => ?_⟩
          rcases Nat.lt_succ_iff_lt_or_eq.1 hj with h | rfl
          · exact hnone j h
          · exact ho
        · refine Or.inr ⟨bb, jb, hb, by omega, hout, hlt, ?_, hstrict⟩
          intro k hk lb' hlb'
          rcases Nat.lt_succ_iff_lt_or_eq.1 hk with h | rfl
          · exact hmax k h lb' hlb'
          · rw [ho] at hlb'
            exact Option.noConfusion hlb'
      obtain ⟨s, bI, bB, heq2, h1, h2, h3⟩ := ih (i + 1) bestI best hinv'
      have hidx : i + 1 + n = i + (n + 1) := by omega
      rw [hidx] at h1 h2 h3
      exact ⟨s, bI, bB, heq.trans heq2, h1, h2, h3⟩
    · -- trial survived the gate with result lb
      have hle := trialOutcome_fst_le hmin ho
      rcases hinv with ⟨hb, hbi, hnone⟩ | ⟨bb, jb, hb, hjb, hout, hlt, hmax, hstrict⟩
      · -- no best yet: this trial becomes the best
        subst hb
        subst hbi
        by_cases hfull : lb.1 = (ro.length : Int) - 1
        · -- immediate success
          have heq : fbmAux fuel ro wantMin draws (n + 1) i 0 none =
              .ok (true, lb.1, some lb.2) := by
            rw [fbmAux_succ]
            dsimp only
            rw [fbmTrial_outcome hperm i, ho]
            simp only [bind, Except.bind, Option.isNone_none, Bool.true_or, if_true,
              ite_true]
            rw [if_pos (by omega : lb.1 ≥ (ro.length : Int) - 1),
              if_pos hfull]
            rfl
          refine ⟨true, lb.1, some lb.2, heq, ?_, ?_, ?_⟩
          · exact ⟨fun _ => ⟨i, by omega, lb, ho, hfull⟩, fun _ => rfl⟩
          · intro _
            exact ⟨i, lb, by omega, ho, hfull, fun k hk => hNF k hk, by omega, rfl⟩
          · intro h
            exact absurd h (by simp)
        · -- not full: record and continue
          have heq : fbmAux fuel ro wantMin draws (n + 1) i 0 none =
              fbmAux fuel ro wantMin draws n (i + 1) lb.1 (some lb.2) := by
            rw [fbmAux_succ]
            dsimp only
            rw [fbmTrial_outcome hperm i, ho]
            simp only [bind, Except.bind, Option.isNone_none, Bool.true_or, if_true,
              ite_true]
            rw [if_neg (by omega : ¬ lb.1 ≥ (ro.length : Int) - 1)]
          have hinv' : FbmInv fuel ro wantMin draws (i + 1) lb.1 (some lb.2) := by
            refine Or.inr ⟨lb.2, i, rfl, by omega, ho, by omega, ?_, ?_⟩
            · intro k hk lb' hlb'
              rcases Nat.lt_succ_iff_lt_or_eq.1 hk with h | rfl
              · rw [hnone k h] at hlb'
                exact Option.noConfusion hlb'
              · rw [ho] at hlb'
                rw [← Option.some.inj hlb']
            · intro k hk lb' hlb'
              rw [hnone k hk] at hlb'
              exact Option.noConfusion hlb'
          obtain ⟨s, bI, bB, heq2, h1, h2, h3⟩ := ih (i + 1) lb.1 (some lb.2) hinv'
          have hidx : i + 1 + n = i + (n + 1) := by omega
          rw [hidx] at h1 h2 h3
          exact ⟨s, bI, bB, heq.trans heq2, h1, h2, h3⟩
      · -- there is a previous best
        subst hb
        by_cases hgt : bestI < lb.1
        · -- strictly better: update
          by_cases hfull : lb.1 = (ro.length : Int) - 1
          · have heq : fbmAux fuel ro wantMin draws (n + 1) i bestI (some bb) =
                .ok (true, lb.1, some lb.2) := by
              unfold fbmAux
              dsimp only
              rw [fbmTrial_outcome hperm i, ho]
              simp only [bind, Except.bind, Option.isNone_some, Bool.false_or]
              have hbestP : (if decide (lb.1 > bestI) = true then (lb.1, some lb.2)
                  else (bestI, some bb)) = (lb.1, some lb.2) := if_pos (by simpa using hgt)
              rw [hbestP]
              rw [if_pos (by omega : lb.1 ≥ (ro.length : Int) - 1), if_pos hfull]
              rfl
            refine ⟨true, lb.1, some lb.2, heq, ?_, ?_, ?_⟩
            · exact ⟨fun _ => ⟨i, by omega, lb, ho, hfull⟩, fun _ => rfl⟩
            · intro _
              exact ⟨i, lb, by omega, ho, hfull, fun k hk => hNF k hk, by omega, rfl⟩
            · intro h
              exact absurd h (by simp)
          · have hinv' : FbmInv fuel ro wantMin draws (i + 1) lb.1 (some lb.2) := by
              refine Or.inr ⟨lb.2, i, rfl, by omega, ho, by omega, ?_, ?_⟩
              · intro k hk lb' hlb'
                rcases Nat.lt_succ_iff_lt_or_eq.1 hk with h | rfl
                · have := hmax k h lb' hlb'
                  omega
                · rw [ho] at hlb'
                  rw [← Option.some.inj hlb']
              · intro k hk lb' hlb'
                have := hmax k (by omega) lb' hlb'
                omega
            obtain ⟨s, bI, bB, heq2, h1, h2, h3⟩ := ih (i + 1) lb.1 (some lb.2) hinv'
            have hidx : i + 1 + n = i + (n + 1) := by omega
            rw [hidx] at h1 h2 h3
            refine ⟨s, bI, bB, ?_, h1, h2, h3⟩
            rw [fbmAux_succ]
            dsimp only
            rw [fbmTrial_outcome hperm i, ho]
            simp only [bind, Except.bind, Option.isNone_some, Bool.false_or]
            have hbestP : (if decide (lb.1 > bestI) = true then (lb.1, some lb.2)
                else (bestI, some bb)) = (lb.1, some lb.2) := if_pos (by simpa using hgt)
            rw [hbestP]
            rw [if_neg (by omega : ¬ lb.1 ≥ (ro.length : Int) - 1)]
            exact heq2
        · -- not better: keep previous best
          have hinv' : FbmInv fuel ro wantMin draws (i + 1) bestI (some bb) := by
            refine Or.inr ⟨bb, jb, rfl, by omega, hout, hlt, ?_, hstrict⟩
            intro k hk lb' hlb'
            rcases Nat.lt_succ_iff_lt_or_eq.1 hk with h | rfl
            · exact hmax k h lb' hlb'
            · rw [ho] at hlb'
              rw [← Option.some.inj hlb']
              omega
          obtain ⟨s, bI, bB, heq2, h1, h2, h3⟩ := ih (i + 1) bestI (some bb) hinv'
          have hidx : i + 1 + n = i + (n + 1) := by omega
          rw [hidx] at h1 h2 h3
          refine ⟨s, bI, bB, ?_, h1, h2, h3⟩
          rw [fbmAux_succ]
          dsimp only
          rw [fbmTrial_outcome hperm i, ho]
          simp only [bind, Except.bind, Option.isNone_some, Bool.false_or]
          have hbestP : (if decide (lb.1 > bestI) = true then (lb.1, some lb.2)
              else (bestI, some bb)) = (bestI, some bb) := if_neg (by simpa using hgt)
          rw [hbestP]
          rw [if_neg (by omega : ¬ bestI ≥ (ro.length : Int) - 1)]
          exact heq2

/-- C5: `_find_boards_matching` (under draw streams that are genuine
shuffles, so the generated boards are valid and `is_solvable` never
raises) returns `success = true` exactly when some trial within the first
`stop_after` achieves the full removal-order length; it then returns at
the first such trial, with `best_i = len(removal_order) - 1` and that
trial's board.  On `success = false` the returned board, when present, has
an achieved prefix strictly shorter than the full length (`best_i <
len - 1`), is the earliest trial attaining the maximal
`last_i_solvable` over all recorded trials (largest prefix, ties keeping
the earliest board), and the board is `None` exactly when no trial
survived the minimum-removal gate. -/
theorem c5_find_boards_matching (fuel : Nat) (ro : List Loc) (wantMin stopAfter : Nat)
    (draws : Nat → ShuffleDraws) (hperm : ∀ i, PermDraws (draws i))
    (hmin : wantMin ≤ ro.length) :
    ∃ success bestI bestB,
      findBoardsMatching fuel ro wantMin stopAfter draws = .ok (success, bestI, bestB) ∧
      (success = true ↔ ∃ j, j < stopAfter ∧ trialFull fuel ro wantMin draws j) ∧
      (success = true →
        ∃ j lb, j < stopAfter ∧ trialOutcome fuel ro wantMin draws j = some lb ∧
          lb.1 = (ro.length : Int) - 1 ∧
          (∀ k, k < j → ¬ trialFull fuel ro wantMin draws k) ∧
          bestI = (ro.length : Int) - 1 ∧ bestB = some lb.2) ∧
      (success = false → ∀ bb, bestB = some bb → bestI < (ro.length : Int) - 1) ∧
      (success = false →
        (bestB = none ↔ ∀ j, j < stopAfter → trialOutcome fuel ro wantMin draws j = none)) ∧
      (success = false → ∀ bb, bestB = some bb →
        ∃ jb, jb < stopAfter ∧ trialOutcome fuel ro wantMin draws jb = some (bestI, bb) ∧
          (∀ k, k < stopAfter → ∀ lb, trialOutcome fuel ro wantMin draws k = some lb →
            lb.1 ≤ bestI) ∧
          (∀ k, k < jb → ∀ lb, trialOutcome fuel ro wantMin draws k = some lb →
            lb.1 < bestI)) := by
  have h0 : FbmInv fuel ro wantMin draws 0 0 none :=
    Or.inl ⟨rfl, rfl, fun j hj => absurd hj (by omega)⟩
  obtain ⟨s, bI, bB, heq, h1, h2, h3⟩ :=
    fbmAux_spec fuel ro wantMin draws hperm hmin stopAfter 0 0 none h0
  rw [Nat.zero_add] at h1 h2 h3
  refine ⟨s, bI, bB, ?_, h1, h2, ?_, ?_, ?_⟩
  · unfold findBoardsMatching
    rw [if_neg (by omega : ¬ ro.length < wantMin)]
    exact heq
  · intro hf bb hbb
    rcases h3 hf with ⟨hn, _, _⟩ | ⟨bb', jb, hsome, _, _, hlt, _, _⟩
    · rw [hn] at hbb
      exact Option.noConfusion hbb
    · exact hlt
  · intro hf
    constructor
    · intro hn j hj
      rcases h3 hf with ⟨_, _, hnone⟩ | ⟨bb', jb, hsome, _, _, _, _, _⟩
      · exact hnone j hj
      · rw [hsome] at hn
        exact Option.noConfusion hn
    · intro hall
      rcases h3 hf with ⟨hn, _, _⟩ | ⟨bb', jb, hsome, hjb, hout, _, _, _⟩
      · exact hn
      · rw [hall jb hjb] at hout
        exact Option.noConfusion hout
  · intro hf bb hbb
    rcases h3 hf with ⟨hn, _, _⟩ | ⟨bb', jb, hsome, hjb, hout, hlt, hmax, hstrict⟩
    · rw [hn] at hbb
      exact Option.noConfusion hbb
    · have hbbe : bb' = bb := Option.some.inj (hsome.symm.trans hbb)
      subst hbbe
      exact ⟨jb, hjb, hout, hmax, hstrict⟩

/-- C7: for every random stream (modelled as draws that are genuine
shuffles, which is all `random.shuffle` produces), `generate_random_board`
yields a board on which `check_validity()` holds and `is_solvable` returns
true (the board is fully assigned, so `solve` succeeds immediately); and
each of the five transformation steps of `shuffled_board` preserves
Sudoku validity and full assignment of an arbitrary board. -/
theorem c7_generate_random_board (fuel : Nat) (d : ShuffleDraws) (hd : PermDraws d) :
    (checkValidity (mkGrid (generateRandomBoard d)) = true ∧
      isSolvable fuel (generateRandomBoard d) = .ok true ∧
      BoardValid (generateRandomBoard d) ∧ BoardComplete (generateRandomBoard d)) ∧
    (∀ b, BoardValid b → BoardComplete b →
      (∀ r, r < 3 → ∀ cols : List Nat, cols.Perm [0, 1, 2] →
        BoardValid (shuffledXColsInXRegion b cols r) ∧
          BoardComplete (shuffledXColsInXRegion b cols r)) ∧
      (∀ r, r < 3 → ∀ rows : List Nat, rows.Perm [0, 1, 2] →
        BoardValid (shuffledYRowsInYRegion b rows r) ∧
          BoardComplete (shuffledYRowsInYRegion b rows r)) ∧
      (∀ bands : List Nat, bands.Perm [0, 1, 2] →
        BoardValid (shuffledXRegionCols b bands) ∧
          BoardComplete (shuffledXRegionCols b bands)) ∧
      (∀ bands : List Nat, bands.Perm [0, 1, 2] →
        BoardValid (shuffledYRegionRows b bands) ∧
          BoardComplete (shuffledYRegionRows b bands)) ∧
      (∀ digits : List Nat, digits.Perm oneToNine →
        BoardValid (shuffledNumbers b digits) ∧
          BoardComplete (shuffledNumbers b digits))) := by
  obtain ⟨hv, hc⟩ := generateRandomBoard_valid hd
  refine ⟨⟨(checkValidity_mkGrid_iff _).2 hv, solve_complete hv hc, hv, hc⟩, ?_⟩
  intro b hbv hbc
  exact ⟨fun r hr cols hp => shuffledXColsInXRegion_pres hbv hbc r hr hp,
    fun r hr rows hp => shuffledYRowsInYRegion_pres hbv hbc r hr hp,
    fun bands hp => shuffledXRegionCols_pres hbv hbc hp,
    fun bands hp => shuffledYRegionRows_pres hbv hbc hp,
    fun digits hp => shuffledNumbers_pres hbv hbc hp⟩

/-- C6 (code bug): `_with_y_row_shuffled` never permutes rows.  Its write
`new_board[new_y, x] = board[old_y, x]` passes the tuple `(new_y, x)` to
`Board.__setitem__`, which reads tuples in `(x, y)` order, so the function
is the very same transformation as `_with_x_col_shuffled` — shown here as
a definitional equality — and steps 2 and 4 of `shuffled_board` permute
columns again instead of rows.  Concretely, with the base board and the
in-band permutation `[1, 0, 2]`: under the claimed row semantics cell
`(x, y) = (0, 0)` of the output would receive the input's row-1 value
`board[(0, 1)] = 4`, but it receives `board[(1, 0)] = 2`, the
column-shuffle result. -/
theorem c6_row_shuffle_writes_columns :
    (∀ (b : List Nat) (y0 : Nat) (newRows : List Nat),
      withYRowShuffled b y0 newRows = withXColShuffled b y0 newRows) ∧
    bval (withYRowShuffled baseBoardL 0 [1, 0, 2]) (0, 0) = bval baseBoardL (1, 0) ∧
    bval baseBoardL (1, 0) = 2 ∧
    bval baseBoardL (0, 1) = 4 := by
  refine ⟨fun b y0 nr => rfl, ?_, by decide, by decide⟩
  rw [withYRowShuffled_eq_withXColShuffled]
  rw [bval_withXColShuffled3 baseBoardL (by decide) 0 1 0 2 (by omega) (by omega) (by omega)
    0 0 (by omega) (by omega)]
  rw [if_neg (by omega), if_pos (by omega)]

/-! ## C9: `TracingSolver` refines `Solver`.  The tracing strategies,
projected onto (grid, changed-flag), are exactly the base strategies; the
trace is only ever appended to; the scoped context is restored on every
exit. -/

theorem foldl_proj {α β ι : Type _} (π : α → β) (F : α → ι → α) (f : β → ι → β)
    (l : List ι) (h : ∀ a x, x ∈ l → π (F a x) = f (π a) x) :
    ∀ a, π (l.foldl F a) = l.foldl f (π a) := by
  induction l with
  | nil => intro a; rfl
  | cons x xs ih =>
    intro a
    rw [List.foldl_cons, List.foldl_cons, ← h a x (List.mem_cons_self x xs)]
    exact ih (fun a y hy => h a y (List.mem_cons_of_mem x hy)) (F a x)

theorem tUpdatePos_fst (gts : Grid × TraceState) (p : Nat × Nat) :
    (tUpdatePos gts p).1 = updatePos gts.1 p := rfl

theorem tUpdatePos_keeps_context (gts : Grid × TraceState) (p : Nat × Nat) :
    (tUpdatePos gts p).2.currMethod = gts.2.currMethod ∧
    (tUpdatePos gts p).2.currData = gts.2.currData := by
  unfold tUpdatePos
  rcases h : gts.2.currMethod with _ | m
  · simp [h]
  · cases m <;> simp [h]

theorem tUpdatePos_output (gts : Grid × TraceState) (p : Nat × Nat) :
    (gts.2.currMethod = some SolverMethod.singlePossibility →
      (tUpdatePos gts p).2.output =
        gts.2.output ++ [SolutionStep.singlePossibility p (getPos gts.1 p)]) ∧
    (gts.2.currMethod = some SolverMethod.oneOccurrenceIn →
      (tUpdatePos gts p).2.output =
        gts.2.output ++ [SolutionStep.oneOccurrence p (getPos gts.1 p) gts.2.currData]) ∧
    (gts.2.currMethod = none → (tUpdatePos gts p).2.output = gts.2.output) := by
  unfold tUpdatePos
  refine ⟨fun h => ?_, fun h => ?_, fun h => ?_⟩ <;> rw [h]

theorem tSpStep_proj (u : Bool) (acc : (Grid × TraceState) × Bool) (p : Nat × Nat) :
    projT (tSpStep u acc p) = spStep u (projT acc) p := by
  rw [spStep_def]
  unfold tSpStep projT
  dsimp only
  split
  · cases u
    · rfl
    · rfl
  · rfl

theorem tSolveSinglePossibilities_proj (g : Grid) (ts : TraceState) (u : Bool) :
    projT (tSolveSinglePossibilities g ts u) = solveSinglePossibilities g u := by
  unfold tSolveSinglePossibilities solveSinglePossibilities
  dsimp only
  have h := foldl_proj projT (tSpStep u) (spStep u) allPositionsXY
    (fun a x _ => tSpStep_proj u a x)
    ((g, { ts with currMethod := some SolverMethod.singlePossibility, currData := none }),
      false)
  exact h

theorem tHandleOneOccurrence_proj (g : Grid) (ts : TraceState)
    (unit : List (Nat × Nat)) (u : Bool) :
    projT (tHandleOneOccurrence g ts unit u) = handleOneOccurrence g unit u := by
  unfold tHandleOneOccurrence handleOneOccurrence
  refine foldl_proj projT _ _ oneToNine (fun a num _ => ?_) ((g, ts), false)
  dsimp only
  by_cases hc : countNum g unit num ≠ 1
  · rw [if_pos hc, if_pos hc]
  · rw [if_neg hc, if_neg hc]
    show projT _ = _
    rcases hfind : unit.find? (fun p =>
        decide (num ∈ (getPos a.1.1 p).options) && ((getPos a.1.1 p).value == 0)) with _ | p
    · unfold projT
      dsimp only
      rw [hfind]
    · unfold projT
      dsimp only
      rw [hfind]
      cases u
      · rfl
      · rfl

theorem tSolve1OccurrenceSeq_proj (dirn : SeqDirn) (unit : List (Nat × Nat)) (g : Grid)
    (ts : TraceState) (u : Bool) :
    projT (tSolve1OccurrenceSeq dirn unit g ts u) = handleOneOccurrence g unit u := by
  unfold tSolve1OccurrenceSeq
  dsimp only
  exact tHandleOneOccurrence_proj g _ unit u

theorem allUnitsDirn_map : allUnitsDirn.map (fun du => du.2) = allUnits := by
  simp [allUnitsDirn, allUnits, List.map_append, List.map_map, List.map_flatMap,
    Function.comp_def]

theorem tSolveOnlyOneOccurrence_proj (g : Grid) (ts : TraceState) (u : Bool) :
    projT (tSolveOnlyOneOccurrence g ts u) = solveOnlyOneOccurrence g u := by
  unfold tSolveOnlyOneOccurrence solveOnlyOneOccurrence
  rw [← allUnitsDirn_map, List.foldl_map]
  refine foldl_proj projT _ _ allUnitsDirn (fun a du _ => ?_) ((g, ts), false)
  dsimp only
  have h := tSolve1OccurrenceSeq_proj du.1 du.2 a.1.1 a.1.2 u
  unfold projT at h ⊢
  dsimp only
  rw [← h]

theorem tSolveSinglePossibilitiesX_proj (fuel : Nat) :
    ∀ (g : Grid) (ts : TraceState),
      projT (tSolveSinglePossibilitiesX fuel g ts) = solveSinglePossibilitiesX fuel g := by
  induction fuel with
  | zero => intro g ts; rfl
  | succ n ih =>
    intro g ts
    unfold tSolveSinglePossibilitiesX solveSinglePossibilitiesX
    dsimp only
    have h := tSolveSinglePossibilities_proj g ts true
    have h1 : (tSolveSinglePossibilities g ts true).1.1 =
        (solveSinglePossibilities g true).1 := congrArg Prod.fst h
    have h2 : (tSolveSinglePossibilities g ts true).2 =
        (solveSinglePossibilities g true).2 := congrArg Prod.snd h
    rw [h2]
    rcases hr : (solveSinglePossibilities g true).2 with _ | _
    · rw [if_neg (by simp)]
      rw [if_neg (by simp)]
      unfold projT
      dsimp only
      rw [h1]
    · rw [if_pos rfl, if_pos rfl]
      unfold projT
      dsimp only
      have h3 := congrArg Prod.fst (ih (tSolveSinglePossibilities g ts true).1.1
        (tSolveSinglePossibilities g ts true).1.2)
      unfold projT at h3
      dsimp only at h3
      rw [h3, h1]

theorem tSolveOnlyOneOccurrenceX_proj (fuel : Nat) :
    ∀ (g : Grid) (ts : TraceState),
      projT (tSolveOnlyOneOccurrenceX fuel g ts) = solveOnlyOneOccurrenceX fuel g := by
  induction fuel with
  | zero => intro g ts; rfl
  | succ n ih =>
    intro g ts
    unfold tSolveOnlyOneOccurrenceX solveOnlyOneOccurrenceX
    dsimp only
    have h := tSolveOnlyOneOccurrence_proj g ts true
    have h1 : (tSolveOnlyOneOccurrence g ts true).1.1 =
        (solveOnlyOneOccurrence g true).1 := congrArg Prod.fst h
    have h2 : (tSolveOnlyOneOccurrence g ts true).2 =
        (solveOnlyOneOccurrence g true).2 := congrArg Prod.snd h
    rw [h2]
    rcases hr : (solveOnlyOneOccurrence g true).2 with _ | _
    · rw [if_neg (by simp), if_neg (by simp)]
      unfold projT
      dsimp only
      rw [h1]
    · rw [if_pos rfl, if_pos rfl]
      unfold projT
      dsimp only
      have h3 := congrArg Prod.fst (ih (tSolveOnlyOneOccurrence g ts true).1.1
        (tSolveOnlyOneOccurrence g ts true).1.2)
      unfold projT at h3
      dsimp only at h3
      rw [h3, h1]

theorem tSolveLoop_fst (fuel : Nat) :
    ∀ (n : Nat) (g : Grid) (ts : TraceState),
      (tSolveLoop fuel n g ts).1 = solveLoop fuel n g := by
  intro n
  induction n with
  | zero => intro g ts; rfl
  | succ m ih =>
    intro g ts
    unfold tSolveLoop solveLoop
    dsimp only
    have hsp := tSolveSinglePossibilitiesX_proj fuel g ts
    have hsp1 : (tSolveSinglePossibilitiesX fuel g ts).1.1 =
        (solveSinglePossibilitiesX fuel g).1 := congrArg Prod.fst hsp
    have hsp2 : (tSolveSinglePossibilitiesX fuel g ts).2 =
        (solveSinglePossibilitiesX fuel g).2 := congrArg Prod.snd hsp
    rw [hsp1, hsp2]
    have hoo := tSolveOnlyOneOccurrenceX_proj fuel (solveSinglePossibilitiesX fuel g).1
      (tSolveSinglePossibilitiesX fuel g ts).1.2
    have hoo1 := congrArg Prod.fst hoo
    have hoo2 := congrArg Prod.snd hoo
    unfold projT at hoo1 hoo2
    dsimp only at hoo1 hoo2
    rw [hoo2]
    rcases hcond : ((solveOnlyOneOccurrenceX fuel (solveSinglePossibilitiesX fuel g).1).2 ||
        (solveSinglePossibilitiesX fuel g).2) with _ | _
    · rw [if_neg (by simp), if_neg (by simp)]
      exact hoo1
    · rw [if_pos rfl, if_pos rfl]
      rw [ih, hoo1]

theorem TraceExt.rfl (ts : TraceState) : TraceExt ts ts :=
  ⟨Eq.refl _, Eq.refl _, [], (List.append_nil _).symm⟩

theorem TraceExt.trans {t1 t2 t3 : TraceState} (h1 : TraceExt t1 t2)
    (h2 : TraceExt t2 t3) : TraceExt t1 t3 := by
  obtain ⟨ha1, hb1, d1, hd1⟩ := h1
  obtain ⟨ha2, hb2, d2, hd2⟩ := h2
  exact ⟨ha2.trans ha1, hb2.trans hb1, d1 ++ d2, by rw [hd2, hd1, List.append_assoc]⟩

theorem foldl_traceExt {ι : Type _}
    (F : (Grid × TraceState) × Bool → ι → (Grid × TraceState) × Bool) (l : List ι)
    (hstep : ∀ a x, x ∈ l → TraceExt a.1.2 (F a x).1.2) :
    ∀ a, TraceExt a.1.2 (l.foldl F a).1.2 := by
  induction l with
  | nil => intro a; exact TraceExt.rfl _
  | cons x xs ih =>
    intro a
    rw [List.foldl_cons]
    exact TraceExt.trans (hstep a x (List.mem_cons_self x xs))
      (ih (fun a y hy => hstep a y (List.mem_cons_of_mem x hy)) (F a x))

theorem tUpdatePos_traceExt (gts : Grid × TraceState) (p : Nat × Nat) :
    TraceExt gts.2 (tUpdatePos gts p).2 := by
  obtain ⟨h1, h2⟩ := tUpdatePos_keeps_context gts p
  refine ⟨h1, h2, ?_⟩
  unfold tUpdatePos
  rcases h : gts.2.currMethod with _ | m
  · exact ⟨[], (List.append_nil _).symm⟩
  · cases m
    · exact ⟨_, rfl⟩
    · exact ⟨_, rfl⟩

theorem tSpStep_traceExt (u : Bool) (acc : (Grid × TraceState) × Bool) (p : Nat × Nat) :
    TraceExt acc.1.2 (tSpStep u acc p).1.2 := by
  unfold tSpStep
  dsimp only
  split
  · cases u
    · exact TraceExt.rfl _
    · exact tUpdatePos_traceExt _ p
  · exact TraceExt.rfl _

theorem tSolveSinglePossibilities_trace (g : Grid) (ts : TraceState) (u : Bool) :
    TraceExt ts (tSolveSinglePossibilities g ts u).1.2 := by
  unfold tSolveSinglePossibilities
  dsimp only
  have h := foldl_traceExt (tSpStep u) allPositionsXY (fun a p _ => tSpStep_traceExt u a p)
    ((g, { ts with currMethod := some SolverMethod.singlePossibility, currData := none }),
      false)
  obtain ⟨h1, h2, d, hd⟩ := h
  exact ⟨rfl, rfl, d, hd⟩

theorem tHandleOneOccurrence_traceExt (g : Grid) (ts : TraceState)
    (unit : List (Nat × Nat)) (u : Bool) :
    TraceExt ts (tHandleOneOccurrence g ts unit u).1.2 := by
  unfold tHandleOneOccurrence
  refine foldl_traceExt _ oneToNine (fun a num _ => ?_) ((g, ts), false)
  dsimp only
  split
  · exact TraceExt.rfl _
  · split
    · exact TraceExt.rfl _
    · cases u
      · exact TraceExt.rfl _
      · exact tUpdatePos_traceExt _ _

theorem tSolve1OccurrenceSeq_trace (dirn : SeqDirn) (unit : List (Nat × Nat)) (g : Grid)
    (ts : TraceState) (u : Bool) :
    TraceExt ts (tSolve1OccurrenceSeq dirn unit g ts u).1.2 := by
  unfold tSolve1OccurrenceSeq
  dsimp only
  obtain ⟨h1, h2, d, hd⟩ := tHandleOneOccurrence_traceExt g
    { ts with currMethod := some SolverMethod.oneOccurrenceIn, currData := some dirn }
    unit u
  exact ⟨rfl, rfl, d, hd⟩

theorem tSolveOnlyOneOccurrence_trace (g : Grid) (ts : TraceState) (u : Bool) :
    TraceExt ts (tSolveOnlyOneOccurrence g ts u).1.2 := by
  unfold tSolveOnlyOneOccurrence
  refine foldl_traceExt _ allUnitsDirn (fun a du _ => ?_) ((g, ts), false)
  dsimp only
  exact tSolve1OccurrenceSeq_trace du.1 du.2 a.1.1 a.1.2 u

theorem tSolveSinglePossibilitiesX_trace (fuel : Nat) :
    ∀ (g : Grid) (ts : TraceState),
      TraceExt ts (tSolveSinglePossibilitiesX fuel g ts).1.2 := by
  induction fuel with
  | zero => intro g ts; exact TraceExt.rfl _
  | succ n ih =>
    intro g ts
    unfold tSolveSinglePossibilitiesX
    dsimp only
    split
    · exact (tSolveSinglePossibilities_trace g ts true).trans (ih _ _)
    · exact tSolveSinglePossibilities_trace g ts true

theorem tSolveOnlyOneOccurrenceX_trace (fuel : Nat) :
    ∀ (g : Grid) (ts : TraceState),
      TraceExt ts (tSolveOnlyOneOccurrenceX fuel g ts).1.2 := by
  induction fuel with
  | zero => intro g ts; exact TraceExt.rfl _
  | succ n ih =>
    intro g ts
    unfold tSolveOnlyOneOccurrenceX
    dsimp only
    split
    · exact (tSolveOnlyOneOccurrence_trace g ts true).trans (ih _ _)
    · exact tSolveOnlyOneOccurrence_trace g ts true

theorem tSolveLoop_trace (fuel : Nat) :
    ∀ (n : Nat) (g : Grid) (ts : TraceState),
      TraceExt ts (tSolveLoop fuel n g ts).2 := by
  intro n
  induction n with
  | zero => intro g ts; exact TraceExt.rfl _
  | succ m ih =>
    intro g ts
    unfold tSolveLoop
    dsimp only
    have h1 := tSolveSinglePossibilitiesX_trace fuel g ts
    have h2 := tSolveOnlyOneOccurrenceX_trace fuel
      (tSolveSinglePossibilitiesX fuel g ts).1.1 (tSolveSinglePossibilitiesX fuel g ts).1.2
    split
    · exact (h1.trans h2).trans (ih _ _)
    · exact h1.trans h2

/-- C9: `TracingSolver.solve()` behaves identically to `Solver.solve()` —
it raises the same errors and returns the same final grid, `has_solution`
and boolean result — while the trace machinery appends exactly one
`SolutionStep` per assignment, at the moment `_update_pos` runs (so in
strategy order), with the scoped current-strategy context established
before each strategy body and restored on every exit path (the `finally`
of `_step_context`). -/
theorem c9_tracing_solver (fuel : Nat) (b : List Nat) :
    (∀ e, tSolve fuel (initTracingSolver b true) = .error e ↔
      solve fuel (initSolver b true) = .error e) ∧
    (∀ ts' r, tSolve fuel (initTracingSolver b true) = .ok (ts', r) →
      solve fuel (initSolver b true) =
        .ok ({ grid := ts'.grid, hasSolution := ts'.hasSolution, debug := ts'.debug }, r) ∧
      ts'.trace.currMethod = none ∧ ts'.trace.currData = none) ∧
    (∀ (gts : Grid × TraceState) (p : Nat × Nat),
      (tUpdatePos gts p).1 = updatePos gts.1 p ∧
      (gts.2.currMethod = some SolverMethod.singlePossibility →
        (tUpdatePos gts p).2.output =
          gts.2.output ++ [SolutionStep.singlePossibility p (getPos gts.1 p)]) ∧
      (gts.2.currMethod = some SolverMethod.oneOccurrenceIn →
        (tUpdatePos gts p).2.output =
          gts.2.output ++ [SolutionStep.oneOccurrence p (getPos gts.1 p) gts.2.currData])) ∧
    (∀ (g : Grid) (ts : TraceState) (u : Bool),
      projT (tSolveSinglePossibilities g ts u) = solveSinglePossibilities g u ∧
      TraceExt ts (tSolveSinglePossibilities g ts u).1.2) ∧
    (∀ (dirn : SeqDirn) (unit : List (Nat × Nat)) (g : Grid) (ts : TraceState) (u : Bool),
      projT (tSolve1OccurrenceSeq dirn unit g ts u) = handleOneOccurrence g unit u ∧
      TraceExt ts (tSolve1OccurrenceSeq dirn unit g ts u).1.2) := by
  have hloop := tSolveLoop_fst fuel fuel (fillOptions (mkGrid b)) ⟨none, none, []⟩
  have hmain : tSolve fuel (initTracingSolver b true) =
      (solve fuel (initSolver b true)).map (fun sr =>
        ({ grid := sr.1.grid, hasSolution := sr.1.hasSolution, debug := sr.1.debug,
           trace := (tSolveLoop fuel fuel (fillOptions (mkGrid b))
             ⟨none, none, []⟩).2 }, sr.2)) := by
    unfold tSolve solve initTracingSolver initSolver
    dsimp only
    rw [hloop]
    rcases hcv : checkValidity (mkGrid b) with _ | _
    · rfl
    · rcases hcv2 : checkValidity (solveLoop fuel fuel (fillOptions (mkGrid b))) with _ | _
      · rfl
      · rfl
  have htrace := tSolveLoop_trace fuel fuel (fillOptions (mkGrid b)) ⟨none, none, []⟩
  refine ⟨?_, ?_, ?_, ?_, ?_⟩
  · intro e
    rw [hmain]
    rcases hs : solve fuel (initSolver b true) with e' | v
    · simp [Except.map]
    · simp [Except.map]
  · intro ts' r hok
    rw [hmain] at hok
    rcases hs : solve fuel (initSolver b true) with e' | v
    · rw [hs] at hok
      exact absurd hok (by simp [Except.map])
    · rw [hs] at hok
      simp only [Except.map] at hok
      have hinj := Except.ok.inj hok
      have h1 := congrArg Prod.fst hinj
      have h2 := congrArg Prod.snd hinj
      dsimp only at h1 h2
      refine ⟨?_, ?_, ?_⟩
      · rw [← h2, ← h1]
      · rw [← h1]
        exact htrace.1
      · rw [← h1]
        exact htrace.2.1
  · intro gts p
    exact ⟨tUpdatePos_fst gts p, (tUpdatePos_output gts p).1, (tUpdatePos_output gts p).2.1⟩
  · intro g ts u
    exact ⟨tSolveSinglePossibilities_proj g ts u, tSolveSinglePossibilities_trace g ts u⟩
  · intro dirn unit g ts u
    exact ⟨tSolve1OccurrenceSeq_proj dirn unit g ts u,
      tSolve1OccurrenceSeq_trace dirn unit g ts u⟩

theorem constDraws_perm : PermDraws constDraws :=
  ⟨fun _ _ => List.Perm.refl _, fun _ _ => List.Perm.refl _, List.Perm.refl _,
    List.Perm.refl _, List.Perm.refl _⟩

/-- Witness for C1 at the base board with fuel 1. -/
theorem c1_solve_contract_witness :
    baseBoardL.length = 81 ∧
    ((checkValidity (mkGrid baseBoardL) = true →
      solve 1 (initSolver baseBoardL true) =
        .ok ({ grid := solveLoop 1 1 (fillOptions (mkGrid baseBoardL)),
               hasSolution :=
                 some (isSolved (solveLoop 1 1 (fillOptions (mkGrid baseBoardL)))),
               debug := true },
             isSolved (solveLoop 1 1 (fillOptions (mkGrid baseBoardL)))) ∧
      (isSolved (solveLoop 1 1 (fillOptions (mkGrid baseBoardL))) = true ↔
        ∀ sq ∈ solveLoop 1 1 (fillOptions (mkGrid baseBoardL)), sq.value ≠ 0)) ∧
    (checkValidity (mkGrid baseBoardL) = false →
      solve 1 (initSolver baseBoardL true) = .error SolveError.invalidSudoku)) :=
  ⟨by decide, c1_solve_contract 1 baseBoardL (by decide)⟩

/-- Witness for C2 at the base board with fuel 1. -/
theorem c2_classify_board_witness :
    (baseBoardL.length = 81 ∧ checkValidity (mkGrid baseBoardL) = true) ∧
    (∃ c sFull sEasy, classifyBoard 1 baseBoardL true = .ok c ∧
      isSolvable 1 baseBoardL = .ok sFull ∧ isEasy 1 baseBoardL = .ok sEasy ∧
      (c = BoardClass.unsolvable ↔ sFull = false) ∧
      (c = BoardClass.easy ↔ sFull = true ∧ sEasy = true) ∧
      (c = BoardClass.hard ↔ sFull = true ∧ sEasy = false)) :=
  ⟨⟨by decide, (checkValidity_mkGrid_iff baseBoardL).2 baseBoardL_valid⟩,
    c2_classify_board 1 baseBoardL (by decide)
      ((checkValidity_mkGrid_iff baseBoardL).2 baseBoardL_valid)⟩

/-- Witness for C5 with an empty removal order, `want_min = 0`, no trials
and the identity draw stream. -/
theorem c5_find_boards_matching_witness :
    ((∀ i : Nat, PermDraws ((fun _ => constDraws) i)) ∧ 0 ≤ ([] : List Loc).length) ∧
    (∃ success bestI bestB,
      findBoardsMatching 0 ([] : List Loc) 0 0 (fun _ => constDraws) =
        .ok (success, bestI, bestB) ∧
      (success = true ↔ ∃ j, j < 0 ∧ trialFull 0 [] 0 (fun _ => constDraws) j) ∧
      (success = true →
        ∃ j lb, j < 0 ∧ trialOutcome 0 [] 0 (fun _ => constDraws) j = some lb ∧
          lb.1 = (([] : List Loc).length : Int) - 1 ∧
          (∀ k, k < j → ¬ trialFull 0 [] 0 (fun _ => constDraws) k) ∧
          bestI = (([] : List Loc).length : Int) - 1 ∧ bestB = some lb.2) ∧
      (success = false → ∀ bb, bestB = some bb →
        bestI < (([] : List Loc).length : Int) - 1) ∧
      (success = false →
        (bestB = none ↔ ∀ j, j < 0 → trialOutcome 0 [] 0 (fun _ => constDraws) j = none)) ∧
      (success = false → ∀ bb, bestB = some bb →
        ∃ jb, jb < 0 ∧ trialOutcome 0 [] 0 (fun _ => constDraws) jb = some (bestI, bb) ∧
          (∀ k, k < 0 → ∀ lb, trialOutcome 0 [] 0 (fun _ => constDraws) k = some lb →
            lb.1 ≤ bestI) ∧
          (∀ k, k < jb → ∀ lb, trialOutcome 0 [] 0 (fun _ => constDraws) k = some lb →
            lb.1 < bestI))) :=
  ⟨⟨fun _ => constDraws_perm, by decide⟩,
    c5_find_boards_matching 0 [] 0 0 (fun _ => constDraws) (fun _ => constDraws_perm)
      (by decide)⟩

/-- Witness for C7 at the identity draw stream with fuel 0. -/
theorem c7_generate_random_board_witness :
    PermDraws constDraws ∧
    ((checkValidity (mkGrid (generateRandomBoard constDraws)) = true ∧
      isSolvable 0 (generateRandomBoard constDraws) = .ok true ∧
      BoardValid (generateRandomBoard constDraws) ∧
      BoardComplete (generateRandomBoard constDraws)) ∧
    (∀ b, BoardValid b → BoardComplete b →
      (∀ r, r < 3 → ∀ cols : List Nat, cols.Perm [0, 1, 2] →
        BoardValid (shuffledXColsInXRegion b cols r) ∧
          BoardComplete (shuffledXColsInXRegion b cols r)) ∧
      (∀ r, r < 3 → ∀ rows : List Nat, rows.Perm [0, 1, 2] →
        BoardValid (shuffledYRowsInYRegion b rows r) ∧
          BoardComplete (shuffledYRowsInYRegion b rows r)) ∧
      (∀ bands : List Nat, bands.Perm [0, 1, 2] →
        BoardValid (shuffledXRegionCols b bands) ∧
          BoardComplete (shuffledXRegionCols b bands)) ∧
      (∀ bands : List Nat, bands.Perm [0, 1, 2] →
        BoardValid (shuffledYRegionRows b bands) ∧
          BoardComplete (shuffledYRegionRows b bands)) ∧
      (∀ digits : List Nat, digits.Perm oneToNine →
        BoardValid (shuffledNumbers b digits) ∧
          BoardComplete (shuffledNumbers b digits)))) :=
  ⟨constDraws_perm, c7_generate_random_board 0 constDraws constDraws_perm⟩

end SudokuTools
